import Mathlib

/-!
# Census chaincode (`Task 1/chaincode/chaincode-go/census.go`)

A shallow embedding of the census smart contract: the `Person` record, its JSON
encoding (`encoding/json` as the contract uses it), the ledger substrate the
contract talks to through `ctx.GetStub()`, and the eight contract operations.
-/

namespace Census

/-! ## Data model -/

/-- Go `error` values, represented by their message (`err.Error()`). -/
abbrev Error := String

/-- The `Person` struct. `Phone` is a Go `uint` (64 bit): a natural number below `2^64`. -/
structure Person where
  FirstName : String
  LastName : String
  City : String
  Address : String
  Phone : Nat
  Married : Bool
deriving DecidableEq

/-- The value of `new(Person)`: every field zero. -/
def Person.zero : Person :=
  { FirstName := "", LastName := "", City := "", Address := "", Phone := 0, Married := false }

/-- The `QueryResult` struct. -/
structure QueryResult where
  Key : String
  Record : Person
deriving DecidableEq

/-- The `Update` struct. `Timestamp` is the commit time the substrate reports,
kept as an abstract number (the conversion by `ptypes.Timestamp` is not
represented). -/
structure Update where
  TxId : String
  Timestamp : Nat
  PersonRecord : Person
deriving DecidableEq

/-! ## `encoding/json` for `Person`: encoder -/

/-- Lower-case hexadecimal digit of a number below 16. -/
def hexDigit (n : Nat) : Char :=
  if n < 10 then Char.ofNat (48 + n) else Char.ofNat (87 + n)

/-- The JSON text `json.Marshal` writes for one character of a string: the
two-character escapes, `\u00XX` for the other control characters and for the
HTML characters (less-than, greater-than, ampersand), the same for U+2028 and
U+2029, and the character itself otherwise. (Go 1.22 and later write backspace
and form feed as two-character escapes; the decoder reads both spellings.)
Strings are Unicode text: a Go string that is not valid UTF-8 is outside this
model. -/
def escapeChar (c : Char) : List Char :=
  if c = '"' then ['\\', '"']
  else if c = '\\' then ['\\', '\\']
  else if c = '\n' then ['\\', 'n']
  else if c = '\r' then ['\\', 'r']
  else if c = '\t' then ['\\', 't']
  else if c.toNat < 32 ∨ c = '<' ∨ c = '>' ∨ c = '&' then
    ['\\', 'u', '0', '0', hexDigit (c.toNat / 16), hexDigit (c.toNat % 16)]
  else if c.toNat = 8232 then ['\\', 'u', '2', '0', '2', '8']
  else if c.toNat = 8233 then ['\\', 'u', '2', '0', '2', '9']
  else [c]

/-- The body of a JSON string literal (between the quotes). -/
def escapeString : List Char → List Char
  | [] => []
  | c :: cs => escapeChar c ++ escapeString cs

/-- A JSON string literal. -/
def encodeString (s : String) : List Char :=
  '"' :: (escapeString s.data ++ ['"'])

/-- Decimal digits of `n`, most significant first, pushed in front of `acc`;
`fuel` bounds the number of digits. -/
def digitsAux : Nat → Nat → List Char → List Char
  | 0, _, acc => acc
  | fuel + 1, n, acc =>
    if n < 10 then Char.ofNat (48 + n) :: acc
    else digitsAux fuel (n / 10) (Char.ofNat (48 + n % 10) :: acc)

/-- The decimal text of an unsigned integer (`strconv.AppendUint(_, n, 10)`);
twenty digits are enough for a 64-bit value. -/
def encodeUint (n : Nat) : List Char := digitsAux 20 n []

/-- The text of a boolean. -/
def encodeBool (b : Bool) : List Char :=
  if b then ['t', 'r', 'u', 'e'] else ['f', 'a', 'l', 's', 'e']

/-- The JSON object `json.Marshal` writes for a `Person`: the six fields in
declaration order under their `json:` tags. -/
def encodePerson (p : Person) : List Char :=
  "\x7b\"firstname\":".data ++ encodeString p.FirstName ++
  ",\"lastname\":".data ++ encodeString p.LastName ++
  ",\"city\":".data ++ encodeString p.City ++
  ",\"address\":".data ++ encodeString p.Address ++
  ",\"phone\":".data ++ encodeUint p.Phone ++
  ",\"married\":".data ++ encodeBool p.Married ++ ['}']

/-- `json.Marshal(person)`: the bytes and the error, which is always `nil` for
a `Person` (strings, an unsigned integer and a boolean always encode). -/
def jsonMarshal (p : Person) : String × Option Error :=
  (String.mk (encodePerson p), none)


/-! ## `encoding/json` for `Person`: decoder -/

/-- The two ways `json.Unmarshal` fails: the text is not JSON (a `SyntaxError`,
found before anything is stored), or a value does not fit its Go target (an
`UnmarshalTypeError`, found while storing). The contract discards the error, so
its message is not represented. -/
inductive JsonError
  | malformed
  | typeMismatch
deriving DecidableEq

/-- Value of a hexadecimal digit, either case. -/
def hexVal (c : Char) : Option Nat :=
  if 48 ≤ c.toNat ∧ c.toNat ≤ 57 then some (c.toNat - 48)
  else if 97 ≤ c.toNat ∧ c.toNat ≤ 102 then some (c.toNat - 87)
  else if 65 ≤ c.toNat ∧ c.toNat ≤ 70 then some (c.toNat - 55)
  else none

/-- The code unit written by the four hexadecimal digits of a `\u` escape. -/
def hex4 (a b c d : Char) : Option Nat :=
  match hexVal a, hexVal b, hexVal c, hexVal d with
  | some w, some x, some y, some z => some (4096 * w + 256 * x + 16 * y + z)
  | _, _, _, _ => none

/-- The character a one-letter escape stands for. -/
def simpleEscape (c : Char) : Option Char :=
  if c = '"' then some '"'
  else if c = '\\' then some '\\'
  else if c = '/' then some '/'
  else if c = 'b' then some (Char.ofNat 8)
  else if c = 'f' then some (Char.ofNat 12)
  else if c = 'n' then some '\n'
  else if c = 'r' then some '\r'
  else if c = 't' then some '\t'
  else none

/-- The second half of a surrogate pair, when the text goes on with a `\u`
escape of a low surrogate: the combined character and the text after it. -/
def lowSurrogate (hi : Nat) : List Char → Option (Char × List Char)
  | x :: y :: a :: b :: c :: d :: rest =>
    if x = '\\' ∧ y = 'u' then
      match hex4 a b c d with
      | some lo =>
        if hi < 56320 ∧ 56320 ≤ lo ∧ lo < 57344 then
          some (Char.ofNat (65536 + (hi - 55296) * 1024 + (lo - 56320)), rest)
        else none
      | none => none
    else none
  | _ => none

/-- Reads a string literal after its opening quote: the decoded characters and
the text after the closing quote. Raw control characters and unknown escapes
are errors; a `\u` escape of a surrogate that is not half of a valid pair
decodes to U+FFFD. `fuel` bounds the number of characters read. -/
def unquote : Nat → List Char → Option (List Char × List Char)
  | 0, _ => none
  | _ + 1, [] => none
  | fuel + 1, c :: rest =>
    if c = '"' then some ([], rest)
    else if c = '\\' then
      match rest with
      | [] => none
      | e :: rest1 =>
        if e = 'u' then
          match rest1 with
          | a :: b :: c1 :: d :: rest2 =>
            match hex4 a b c1 d with
            | none => none
            | some rr =>
              if 55296 ≤ rr ∧ rr < 57344 then
                match lowSurrogate rr rest2 with
                | some (ch, rest3) => (unquote fuel rest3).map (fun r => (ch :: r.1, r.2))
                | none => (unquote fuel rest2).map (fun r => (Char.ofNat 65533 :: r.1, r.2))
              else (unquote fuel rest2).map (fun r => (Char.ofNat rr :: r.1, r.2))
          | _ => none
        else
          match simpleEscape e with
          | some ch => (unquote fuel rest1).map (fun r => (ch :: r.1, r.2))
          | none => none
    else if c.toNat < 32 then none
    else (unquote fuel rest).map (fun r => (c :: r.1, r.2))

/-- JSON white space. -/
def isSpace (c : Char) : Bool :=
  c = ' ' || c = '\t' || c = '\r' || c = '\n'

/-- Drops leading white space. -/
def skipSpace : List Char → List Char
  | [] => []
  | c :: cs => if isSpace c then skipSpace cs else c :: cs

/-- A decimal digit. -/
def isDigit (c : Char) : Bool :=
  decide (48 ≤ c.toNat) && decide (c.toNat ≤ 57)

/-- The exponent of a number literal, if one follows. -/
def scanExp (lit : List Char) (cs : List Char) : Option (List Char × List Char) :=
  match cs with
  | e :: t =>
    if e = 'e' ∨ e = 'E' then
      match t with
      | sg :: t1 =>
        if sg = '+' ∨ sg = '-' then
          match t1.span isDigit with
          | ([], _) => none
          | (ds, t2) => some (lit ++ e :: sg :: ds, t2)
        else
          match t.span isDigit with
          | ([], _) => none
          | (ds, t2) => some (lit ++ e :: ds, t2)
      | [] => none
    else some (lit, cs)
  | [] => some (lit, cs)

/-- The fraction of a number literal, if one follows, then the exponent. -/
def scanFrac (lit : List Char) (cs : List Char) : Option (List Char × List Char) :=
  match cs with
  | dot :: t =>
    if dot = '.' then
      match t.span isDigit with
      | ([], _) => none
      | (ds, t1) => scanExp (lit ++ dot :: ds) t1
    else scanExp lit cs
  | [] => scanExp lit cs

/-- The integer part of a number literal (after the sign, if any): a lone `0`
or a non-zero digit followed by digits. -/
def scanInt (sign : List Char) (cs : List Char) : Option (List Char × List Char) :=
  match cs with
  | d :: t =>
    if d = '0' then scanFrac (sign ++ [d]) t
    else if isDigit d then
      match t.span isDigit with
      | (ds, t1) => scanFrac (sign ++ d :: ds) t1
    else none
  | [] => none

/-- Reads a number literal: its text and the text after it. -/
def scanNumber (cs : List Char) : Option (List Char × List Char) :=
  match cs with
  | c :: t => if c = '-' then scanInt [c] t else scanInt [] cs
  | [] => none

/-- Removes the expected characters from the front of the text. -/
def dropLit : List Char → List Char → Option (List Char)
  | [], cs => some cs
  | _ :: _, [] => none
  | x :: xs, c :: cs => if x = c then dropLit xs cs else none

/-- What a JSON value is, as far as storing it into a field of `Person` needs
to know: the contents of arrays and objects are checked but not kept. -/
inductive JShape
  | null
  | bool (b : Bool)
  | number (lit : List Char)
  | string (s : List Char)
  | array
  | object
deriving DecidableEq

/-- The deepest nesting of arrays and objects the decoder accepts
(`maxNestingDepth`, Go 1.15 and later). -/
def maxNestingDepth : Nat := 10000

mutual

/-- Reads one JSON value; `depth` counts the arrays and objects that are open
around it. -/
def parseValue : Nat → Nat → List Char → Option (JShape × List Char)
  | 0, _, _ => none
  | _ + 1, _, [] => none
  | fuel + 1, depth, c :: rest =>
    if c = '{' then
      if maxNestingDepth ≤ depth then none
      else
        match skipSpace rest with
        | [] => none
        | c1 :: rest1 =>
          if c1 = '}' then some (JShape.object, rest1)
          else
            (parseMembers fuel (depth + 1) (c1 :: rest1)).map (fun r => (JShape.object, r.2))
    else if c = '[' then
      if maxNestingDepth ≤ depth then none
      else
        match skipSpace rest with
        | [] => none
        | c1 :: rest1 =>
          if c1 = ']' then some (JShape.array, rest1)
          else (parseElements fuel (depth + 1) (c1 :: rest1)).map (fun r => (JShape.array, r))
    else if c = '"' then
      (unquote (rest.length + 1) rest).map (fun r => (JShape.string r.1, r.2))
    else if c = 't' then (dropLit ['r', 'u', 'e'] rest).map (fun r => (JShape.bool true, r))
    else if c = 'f' then
      (dropLit ['a', 'l', 's', 'e'] rest).map (fun r => (JShape.bool false, r))
    else if c = 'n' then (dropLit ['u', 'l', 'l'] rest).map (fun r => (JShape.null, r))
    else (scanNumber (c :: rest)).map (fun r => (JShape.number r.1, r.2))

/-- Reads the elements of a non-empty array up to and including the closing
bracket. -/
def parseElements : Nat → Nat → List Char → Option (List Char)
  | 0, _, _ => none
  | fuel + 1, depth, cs =>
    match parseValue fuel depth cs with
    | none => none
    | some (_, rest) =>
      match skipSpace rest with
      | [] => none
      | c :: rest1 =>
        if c = ',' then parseElements fuel depth (skipSpace rest1)
        else if c = ']' then some rest1
        else none

/-- Reads the members of a non-empty object up to and including the closing
brace: the keys with the shapes of their values, in the order of the text. -/
def parseMembers : Nat → Nat → List Char → Option (List (List Char × JShape) × List Char)
  | 0, _, _ => none
  | _ + 1, _, [] => none
  | fuel + 1, depth, q :: rest =>
    if q = '"' then
      match unquote (rest.length + 1) rest with
      | none => none
      | some (key, rest1) =>
        match skipSpace rest1 with
        | [] => none
        | colon :: rest2 =>
          if colon = ':' then
            match parseValue fuel depth (skipSpace rest2) with
            | none => none
            | some (v, rest3) =>
              match skipSpace rest3 with
              | [] => none
              | c :: rest4 =>
                if c = ',' then
                  (parseMembers fuel depth (skipSpace rest4)).map
                    (fun r => ((key, v) :: r.1, r.2))
                else if c = '}' then some ([(key, v)], rest4)
                else none
          else none
    else none

end

/-- The top-level JSON value of a text: the members when it is an object, its
shape otherwise. -/
inductive JTop
  | members (ms : List (List Char × JShape))
  | other (v : JShape)

/-- Checks that the whole text is one JSON value between optional white space
(what `checkValid` does) and reads it. Every call of the readers above uses up
at least one character every second step, so twice the length of the text is
fuel enough for any text. -/
def parseJSON (cs : List Char) : Option JTop :=
  let fuel := 2 * cs.length + 2
  match skipSpace cs with
  | [] => none
  | c :: rest =>
    if c = '{' then
      match skipSpace rest with
      | [] => none
      | c1 :: rest1 =>
        if c1 = '}' then
          if skipSpace rest1 = [] then some (JTop.members []) else none
        else
          match parseMembers fuel 1 (c1 :: rest1) with
          | some (ms, rest2) => if skipSpace rest2 = [] then some (JTop.members ms) else none
          | none => none
    else
      match parseValue fuel 0 (c :: rest) with
      | some (v, rest1) => if skipSpace rest1 = [] then some (JTop.other v) else none
      | none => none

/-- Folding of a key character for the case-insensitive match of object keys
with field names: ASCII upper case to lower case, the Kelvin sign to `k` and
the long s to `s`. -/
def foldChar (c : Char) : Char :=
  if 65 ≤ c.toNat ∧ c.toNat ≤ 90 then Char.ofNat (c.toNat + 32)
  else if c.toNat = 8490 then 'k'
  else if c.toNat = 383 then 's'
  else c

/-- `strconv.ParseUint(s, 10, 64)`: digits only, and the value must fit 64 bits. -/
def parseUint (lit : List Char) : Option Nat :=
  if lit ≠ [] ∧ lit.all isDigit = true then
    let v := lit.foldl (fun a c => 10 * a + (c.toNat - 48)) 0
    if v < 2 ^ 64 then some v else none
  else none

/-- Stores a string value into a string field: `null` leaves the field as it
is, anything but a string is a type error that leaves it as it is as well. -/
def storeString (v : JShape) (old : String) : String × Option JsonError :=
  match v with
  | JShape.string s => (String.mk s, none)
  | JShape.null => (old, none)
  | _ => (old, some JsonError.typeMismatch)

/-- Stores a value into the `uint` field. -/
def storeUint (v : JShape) (old : Nat) : Nat × Option JsonError :=
  match v with
  | JShape.number lit =>
    match parseUint lit with
    | some n => (n, none)
    | none => (old, some JsonError.typeMismatch)
  | JShape.null => (old, none)
  | _ => (old, some JsonError.typeMismatch)

/-- Stores a value into the `bool` field. -/
def storeBool (v : JShape) (old : Bool) : Bool × Option JsonError :=
  match v with
  | JShape.bool b => (b, none)
  | JShape.null => (old, none)
  | _ => (old, some JsonError.typeMismatch)

/-- Stores one object member into the `Person`: the key selects the field by
its `json:` tag, ignoring case; a member with an unknown key is skipped. -/
def storeMember (key : List Char) (v : JShape) (p : Person) : Person × Option JsonError :=
  let k := key.map foldChar
  if k = "firstname".data then
    ({ p with FirstName := (storeString v p.FirstName).1 }, (storeString v p.FirstName).2)
  else if k = "lastname".data then
    ({ p with LastName := (storeString v p.LastName).1 }, (storeString v p.LastName).2)
  else if k = "city".data then
    ({ p with City := (storeString v p.City).1 }, (storeString v p.City).2)
  else if k = "address".data then
    ({ p with Address := (storeString v p.Address).1 }, (storeString v p.Address).2)
  else if k = "phone".data then
    ({ p with Phone := (storeUint v p.Phone).1 }, (storeUint v p.Phone).2)
  else if k = "married".data then
    ({ p with Married := (storeBool v p.Married).1 }, (storeBool v p.Married).2)
  else (p, none)

/-- Stores the members in order; a type error does not stop the decoding, and
the first one is the error reported. -/
def storeMembers : List (List Char × JShape) → Person → Option JsonError →
    Person × Option JsonError
  | [], p, err => (p, err)
  | (key, v) :: ms, p, err =>
    storeMembers ms (storeMember key v p).1
      (match err with
       | some e => some e
       | none => (storeMember key v p).2)

/-- `json.Unmarshal(data, person)`: the `Person` after the call and the error.
A text that is not JSON leaves the `Person` untouched; an object is stored
member by member; `null` stores nothing; any other value is a type error. -/
def jsonUnmarshal (data : String) (person : Person) : Person × Option JsonError :=
  match parseJSON data.data with
  | none => (person, some JsonError.malformed)
  | some (JTop.members ms) => storeMembers ms person none
  | some (JTop.other JShape.null) => (person, none)
  | some (JTop.other _) => (person, some JsonError.typeMismatch)


/-! ## Ledger substrate

The contract reaches the ledger through `ctx.GetStub()`. The stub is the
external service of the specification (sections 4.1 and 6): `put` commits a new
version of a key, `get` returns the latest committed value or nothing, `scan`
lists the committed keys in key order with their latest values, and `history`
lists the versions of a key oldest first. Any call may fail with an I/O error;
a failed `put` commits nothing. -/

/-- One committed version of a key. -/
structure Version where
  TxId : String
  Timestamp : Nat
  Value : String
deriving DecidableEq

/-- Modelled from the spec: the state of the external ledger (section 4.1),
every committed write, oldest first. -/
abbrev Ledger := List (String × Version)

/-- The transaction context of one invocation: the transaction id and commit
time the substrate assigns to its writes, and the outcome of each substrate
call the invocation makes (`none`: the call works; `some e`: it fails with `e`). -/
structure Ctx where
  txId : String
  timestamp : Nat
  getErr : String → Option Error
  putErr : String → String → Option Error
  rangeErr : Option Error
  historyErr : String → Option Error
  nextErr : Nat → Option Error

/-- Modelled from the spec: the substrate's per-key log (section 4.1,
`history(key)`): the versions committed for a key, oldest first. -/
def history (s : Ledger) (key : String) : List Version :=
  (s.filter (fun e => decide (e.1 = key))).map Prod.snd

/-- Modelled from the spec: the committed state of a key (section 4.1,
`get(key) -> value | absent`): its latest committed value, if it was ever
written. -/
def latest (s : Ledger) (key : String) : Option String :=
  (history s key).getLast?.map Version.Value

/-- Lexicographic order of character sequences. -/
def ltChars : List Char → List Char → Bool
  | [], [] => false
  | [], _ :: _ => true
  | _ :: _, [] => false
  | a :: as, b :: bs =>
    if a.toNat < b.toNat then true
    else if b.toNat < a.toNat then false
    else ltChars as bs

/-- Modelled from the spec: the substrate's native key order (section 4.1),
lexicographic by key string. -/
def keyLt (a b : String) : Bool := ltChars a.data b.data

/-- Inserts a key into a list of keys in key order, once. -/
def insertKey (k : String) : List String → List String
  | [] => [k]
  | x :: xs =>
    if keyLt k x then k :: x :: xs
    else if k = x then x :: xs
    else x :: insertKey k xs

/-- Modelled from the spec: the keys of the committed key/value pairs, in key
order (section 4.1, `scan`). -/
def keys (s : Ledger) : List String :=
  s.foldr (fun e acc => insertKey e.1 acc) []

/-- Whether a key falls in `[startKey, endKey)`; an empty bound is no bound. -/
def inRange (startKey endKey k : String) : Bool :=
  (decide (startKey = "") || !keyLt k startKey) && (decide (endKey = "") || keyLt k endKey)

/-- Modelled from the spec: `stub.GetState(key)` of the external ledger stub
(section 4.1, `get`): the value (`none` is Go's `nil`) and the error; a failed
call returns no value. -/
def GetState (c : Ctx) (s : Ledger) (key : String) : Option String × Option Error :=
  match c.getErr key with
  | some e => (none, some e)
  | none => (latest s key, none)

/-- Modelled from the spec: `stub.PutState(key, value)` of the external ledger
stub (section 4.1, `put`): the ledger after the call and the error. A put that
works appends a new version of the key; a put that fails commits nothing. -/
def PutState (c : Ctx) (s : Ledger) (key : String) (value : String) : Ledger × Option Error :=
  match c.putErr key value with
  | some e => (s, some e)
  | none => (s ++ [(key, { TxId := c.txId, Timestamp := c.timestamp, Value := value })], none)

/-- Modelled from the spec: `stub.GetStateByRange(startKey, endKey)` of the
external ledger stub (section 4.1, `scan`): the entries the iterator will
yield, in key order, or the error. -/
def GetStateByRange (c : Ctx) (s : Ledger) (startKey endKey : String) :
    Except Error (List (String × String)) :=
  match c.rangeErr with
  | some e => Except.error e
  | none =>
    Except.ok (((keys s).filter (inRange startKey endKey)).filterMap
      (fun k => (latest s k).map (fun v => (k, v))))

/-- Modelled from the spec: `stub.GetHistoryForKey(key)` of the external ledger
stub (section 4.1, `history`): the versions the iterator will yield, oldest
first, or the error. -/
def GetHistoryForKey (c : Ctx) (s : Ledger) (key : String) : Except Error (List Version) :=
  match c.historyErr key with
  | some e => Except.error e
  | none => Except.ok (history s key)

/-! ## The contract -/

/-- The `ids` array of `InitLedger`. -/
def InitLedger.ids : List String := ["2340001122", "1235553333"]

/-- The `people` array of `InitLedger`. -/
def InitLedger.people : List Person :=
  [{ FirstName := "Lorem", LastName := "Ipsum", City := "Dolgoprudny",
     Address := "Pervomayskaya 15", Phone := 89001112233, Married := false },
   { FirstName := "Dolor", LastName := "Sit", City := "Moscow",
     Address := "Pushkina 11", Phone := 89001230000, Married := false }]

/-- The `for i, person := range people` loop of `InitLedger`, over the pairs
`(ids[i], person)`. -/
def InitLedger.loop (c : Ctx) : Ledger → List (String × Person) → Ledger × Option Error
  | s, [] => (s, none)
  | s, (id, person) :: rest =>
    match PutState c s id (jsonMarshal person).1 with
    | (s1, some err) => (s1, some ("failed to put to world state. " ++ err))
    | (s1, none) => InitLedger.loop c s1 rest

/-- `InitLedger`: the ledger after the call and the error returned. -/
def InitLedger (c : Ctx) (s : Ledger) : Ledger × Option Error :=
  InitLedger.loop c s (InitLedger.ids.zip InitLedger.people)

/-- `CreatePerson`: the ledger after the call and the error returned. The error
of `GetState` is dropped, as in the source (`personAsBytes, _ := ...`). -/
def CreatePerson (c : Ctx) (s : Ledger) (id firstName lastName city address : String)
    (phone : Nat) (married : Bool) : Ledger × Option Error :=
  match (GetState c s id).1 with
  | some _ => (s, some ("person with id " ++ id ++ " already exists"))
  | none =>
    let person : Person :=
      { FirstName := firstName, LastName := lastName, City := city, Address := address,
        Phone := phone, Married := married }
    match jsonMarshal person with
    | (_, some err) => (s, some ("failed to put to world state. " ++ err))
    | (personAsBytes, none) => PutState c s id personAsBytes

/-- `QueryPerson`: the person or the error. The error of `json.Unmarshal` is
dropped, as in the source. -/
def QueryPerson (c : Ctx) (s : Ledger) (id : String) : Except Error Person :=
  match GetState c s id with
  | (_, some err) => Except.error ("failed to read from world state. " ++ err)
  | (none, none) => Except.error ("person with id " ++ id ++ " does not exist")
  | (some personAsBytes, none) => Except.ok (jsonUnmarshal personAsBytes Person.zero).1

/-- The `for resultsIterator.HasNext()` loop of `QueryAllPersons`: `i` counts
the calls of `Next`, `results` is the slice built so far. -/
def QueryAllPersons.loop (c : Ctx) : Nat → List (String × String) → List QueryResult →
    Except Error (List QueryResult)
  | _, [], results => Except.ok results
  | i, queryResponse :: rest, results =>
    match c.nextErr i with
    | some err => Except.error err
    | none =>
      QueryAllPersons.loop c (i + 1) rest
        (results ++ [{ Key := queryResponse.1,
                       Record := (jsonUnmarshal queryResponse.2 Person.zero).1 }])

/-- `QueryAllPersons`: the results or the error. -/
def QueryAllPersons (c : Ctx) (s : Ledger) : Except Error (List QueryResult) :=
  match GetStateByRange c s "" "" with
  | Except.error err => Except.error err
  | Except.ok resultsIterator => QueryAllPersons.loop c 0 resultsIterator []

/-- `UpdateLocation`: the ledger after the call and the error returned. -/
def UpdateLocation (c : Ctx) (s : Ledger) (id newCity newAddress : String) :
    Ledger × Option Error :=
  match QueryPerson c s id with
  | Except.error err => (s, some err)
  | Except.ok person =>
    PutState c s id (jsonMarshal { person with City := newCity, Address := newAddress }).1

/-- `UpdatePhone`: the ledger after the call and the error returned. -/
def UpdatePhone (c : Ctx) (s : Ledger) (id : String) (newPhone : Nat) : Ledger × Option Error :=
  match QueryPerson c s id with
  | Except.error err => (s, some err)
  | Except.ok person => PutState c s id (jsonMarshal { person with Phone := newPhone }).1

/-- `UpdateMarriage`: the ledger after the call and the error returned. -/
def UpdateMarriage (c : Ctx) (s : Ledger) (id : String) (newMarriage : Bool) :
    Ledger × Option Error :=
  match QueryPerson c s id with
  | Except.error err => (s, some err)
  | Except.ok person => PutState c s id (jsonMarshal { person with Married := newMarriage }).1

/-- The `for resultsIterator.HasNext()` loop of `GetUpdatesHistory`. -/
def GetUpdatesHistory.loop (c : Ctx) : Nat → List Version → List Update →
    Except Error (List Update)
  | _, [], updatesHistory => Except.ok updatesHistory
  | i, response :: rest, updatesHistory =>
    match c.nextErr i with
    | some err => Except.error err
    | none =>
      GetUpdatesHistory.loop c (i + 1) rest
        (updatesHistory ++ [{ TxId := response.TxId, Timestamp := response.Timestamp,
                              PersonRecord := (jsonUnmarshal response.Value Person.zero).1 }])

/-- `GetUpdatesHistory`: the updates or the error. -/
def GetUpdatesHistory (c : Ctx) (s : Ledger) (id : String) : Except Error (List Update) :=
  match QueryPerson c s id with
  | Except.error err => Except.error err
  | Except.ok _ =>
    match GetHistoryForKey c s id with
    | Except.error err => Except.error err
    | Except.ok resultsIterator => GetUpdatesHistory.loop c 0 resultsIterator []

/-- An invocation of the contract: the operation and its arguments. -/
inductive Op
  | initLedger
  | createPerson (id firstName lastName city address : String) (phone : Nat) (married : Bool)
  | queryPerson (id : String)
  | queryAllPersons
  | updateLocation (id newCity newAddress : String)
  | updatePhone (id : String) (newPhone : Nat)
  | updateMarriage (id : String) (newMarriage : Bool)
  | getUpdatesHistory (id : String)

/-- The error of a result (`none` when the call succeeded). -/
def errorOf {α : Type} : Except Error α → Option Error
  | Except.error e => some e
  | Except.ok _ => none

/-- Runs one invocation: the ledger after it and the error it returned. The
three queries never call `PutState`, so they leave the ledger as it is. -/
def Op.run (c : Ctx) (s : Ledger) : Op → Ledger × Option Error
  | Op.initLedger => InitLedger c s
  | Op.createPerson id firstName lastName city address phone married =>
    CreatePerson c s id firstName lastName city address phone married
  | Op.queryPerson id => (s, errorOf (QueryPerson c s id))
  | Op.queryAllPersons => (s, errorOf (QueryAllPersons c s))
  | Op.updateLocation id newCity newAddress => UpdateLocation c s id newCity newAddress
  | Op.updatePhone id newPhone => UpdatePhone c s id newPhone
  | Op.updateMarriage id newMarriage => UpdateMarriage c s id newMarriage
  | Op.getUpdatesHistory id => (s, errorOf (GetUpdatesHistory c s id))

/-- Runs a sequence of invocations, each in its own transaction context. -/
def runAll : Ledger → List (Ctx × Op) → Ledger
  | s, [] => s
  | s, (c, op) :: rest => runAll (op.run c s).1 rest

/-- A transaction context in which no substrate call fails. -/
def Ctx.ok (txId : String) (timestamp : Nat) : Ctx :=
  { txId := txId, timestamp := timestamp, getErr := fun _ => none, putErr := fun _ _ => none,
    rangeErr := none, historyErr := fun _ => none, nextErr := fun _ => none }

/-! ## Auxiliary definitions for the statements and proofs -/

/-- One object member as the encoder writes it, followed by `rest`. -/
def memberText (key val rest : List Char) : List Char :=
  '"' :: (escapeString key ++ '"' :: ':' :: (val ++ rest))

/-- The members the decoder reads from an encoded `Person`. -/
def membersOf (p : Person) : List (List Char × JShape) :=
  [("firstname".data, JShape.string p.FirstName.data),
   ("lastname".data, JShape.string p.LastName.data),
   ("city".data, JShape.string p.City.data),
   ("address".data, JShape.string p.Address.data),
   ("phone".data, JShape.number (encodeUint p.Phone)),
   ("married".data, JShape.bool p.Married)]


/-- A field update of a record: one of the three update operations with its
arguments. -/
inductive Write
  | location (newCity newAddress : String)
  | phone (newPhone : Nat)
  | marriage (newMarriage : Bool)

/-- The record after a field update, in the words of the specification: the
targeted fields are replaced, every other field keeps its value. -/
def Write.apply (p : Person) : Write → Person
  | Write.location newCity newAddress => { p with City := newCity, Address := newAddress }
  | Write.phone newPhone => { p with Phone := newPhone }
  | Write.marriage newMarriage => { p with Married := newMarriage }

/-- The invocation that performs a field update on key `id`. -/
def Write.run (c : Ctx) (s : Ledger) (id : String) : Write → Ledger × Option Error
  | Write.location newCity newAddress => UpdateLocation c s id newCity newAddress
  | Write.phone newPhone => UpdatePhone c s id newPhone
  | Write.marriage newMarriage => UpdateMarriage c s id newMarriage

/-- The argument of the update is a value of its Go type: a phone is a 64-bit
unsigned integer. -/
def Write.wellTyped : Write → Bool
  | Write.phone newPhone => decide (newPhone < 2 ^ 64)
  | _ => true

/-- The ledger after a sequence of field updates of key `id`, each in its own
transaction. -/
def runWrites (id : String) : Ledger → List (Ctx × Write) → Ledger
  | s, [] => s
  | s, (c, w) :: ws => runWrites id (w.run c s id).1 ws

/-- Whether every update of the sequence returned without error. -/
def writesOk (id : String) : Ledger → List (Ctx × Write) → Bool
  | _, [] => true
  | s, (c, w) :: ws => (w.run c s id).2.isNone && writesOk id (w.run c s id).1 ws

/-- The history the specification expects after the updates: one entry per
write, in commit order, each with the transaction that made it and the record
as it was right after it. -/
def replay : Person → List (Ctx × Write) → List Update
  | _, [] => []
  | p, (c, w) :: ws =>
    { TxId := c.txId, Timestamp := c.timestamp, PersonRecord := w.apply p } ::
      replay (w.apply p) ws

/-- The record after all the updates. -/
def finalPerson : Person → List (Ctx × Write) → Person
  | p, [] => p
  | p, (_, w) :: ws => finalPerson (w.apply p) ws

/-- The version the substrate stores for a history entry. -/
def Update.version (u : Update) : Version :=
  { TxId := u.TxId, Timestamp := u.Timestamp, Value := (jsonMarshal u.PersonRecord).1 }

/-- The history entry `GetUpdatesHistory` builds from a stored version. -/
def Version.update (v : Version) : Update :=
  { TxId := v.TxId, Timestamp := v.Timestamp,
    PersonRecord := (jsonUnmarshal v.Value Person.zero).1 }

/-- Whether every invocation of the sequence returned without error. -/
def allOk : Ledger → List (Ctx × Op) → Bool
  | _, [] => true
  | s, (c, op) :: rest => (op.run c s).2.isNone && allOk (op.run c s).1 rest

/-- The keys an invocation creates when it succeeds. -/
def Op.created : Op → List String
  | Op.initLedger => InitLedger.ids
  | Op.createPerson id _ _ _ _ _ _ => [id]
  | _ => []

/-- The keys created by a sequence of successful invocations. -/
def createdKeys : List (Ctx × Op) → List String
  | [] => []
  | (_, op) :: rest => op.created ++ createdKeys rest

/-- A transaction context in which the substrate rejects every write to the
second seed key of `InitLedger` and nothing else fails. -/
def Ctx.secondSeedFails : Ctx :=
  { txId := "tx1", timestamp := 1, getErr := fun _ => none,
    putErr := fun key _ => if key = "1235553333" then some "disk full" else none,
    rangeErr := none, historyErr := fun _ => none, nextErr := fun _ => none }

/-- A transaction context in which every `GetState` fails and nothing else does. -/
def Ctx.readsFail : Ctx :=
  { txId := "tx1", timestamp := 1, getErr := fun _ => some "connection lost",
    putErr := fun _ _ => none, rangeErr := none, historyErr := fun _ => none,
    nextErr := fun _ => none }

/-- What an invocation may change in the record `p` held by key `k`, giving
`p1`: an update of `k` may change its targeted fields, anything else nothing. -/
def Op.preserves (op : Op) (k : String) (p p1 : Person) : Prop :=
  match op with
  | Op.updateLocation id _ _ =>
    if id = k then p1 = { p with City := p1.City, Address := p1.Address } else p1 = p
  | Op.updatePhone id _ => if id = k then p1 = { p with Phone := p1.Phone } else p1 = p
  | Op.updateMarriage id _ => if id = k then p1 = { p with Married := p1.Married } else p1 = p
  | _ => p1 = p

/-- A stored value that is JSON but not the encoding of a `Person`: the phone
is a string. -/
def phoneAsText : String := "\x7b\"firstname\":\"A\",\"phone\":\"x\"\x7d"

/-- A stored value that is the encoding of a `Person` except that the marriage
flag is written as the JSON string `t` instead of a boolean. -/
def encodePersonMarriedText (p : Person) (t : String) : List Char :=
  "\x7b\"firstname\":".data ++ encodeString p.FirstName ++
  ",\"lastname\":".data ++ encodeString p.LastName ++
  ",\"city\":".data ++ encodeString p.City ++
  ",\"address\":".data ++ encodeString p.Address ++
  ",\"phone\":".data ++ encodeUint p.Phone ++
  ",\"married\":".data ++ encodeString t ++ ['}']

/-! ## The codec: decoding an encoded `Person` -/

theorem hexVal_hexDigit : ∀ k, k < 16 → hexVal (hexDigit k) = some k := by decide

theorem char_eq_of_toNat {c : Char} {n : Nat} (h : c.toNat = n) : c = Char.ofNat n := by
  rw [← h, Char.ofNat_toNat]

theorem unquote_escapeChar (fuel : Nat) (c : Char) (tail : List Char) :
    unquote (fuel + 1) (escapeChar c ++ tail) =
      (unquote fuel tail).map (fun r => (c :: r.1, r.2)) := by
  unfold escapeChar
  split_ifs with h1 h2 h3 h4 h5 h6 h7 h8
  · subst h1; simp +decide [unquote, simpleEscape]
  · subst h2; simp +decide [unquote, simpleEscape]
  · subst h3; simp +decide [unquote, simpleEscape]
  · subst h4; simp +decide [unquote, simpleEscape]
  · subst h5; simp +decide [unquote, simpleEscape]
  · have hn : c.toNat < 64 := by
      rcases h6 with h | h | h | h
      · omega
      · subst h; decide
      · subst h; decide
      · subst h; decide
    have e1 := hexVal_hexDigit (c.toNat / 16) (by omega)
    have e2 := hexVal_hexDigit (c.toNat % 16) (by omega)
    have e0 : hexVal '0' = some 0 := by decide
    have hsum : 16 * (c.toNat / 16) + c.toNat % 16 = c.toNat := by omega
    have hns : ¬ (55296 ≤ c.toNat ∧ c.toNat < 57344) := by omega
    simp +decide [unquote, hex4, e0, e1, e2, hsum, hns, Char.ofNat_toNat]
  · have := char_eq_of_toNat h7
    subst this
    have e : hex4 '2' '0' '2' '8' = some 8232 := by decide
    simp +decide [unquote, e]
  · have := char_eq_of_toNat h8
    subst this
    have e : hex4 '2' '0' '2' '9' = some 8233 := by decide
    simp +decide [unquote, e]
  · have h32 : ¬ c.toNat < 32 := fun h => h6 (Or.inl h)
    simp [unquote, h1, h2, h32]

theorem unquote_escapeString (s rest : List Char) :
    ∀ fuel, s.length < fuel → unquote fuel (escapeString s ++ '"' :: rest) = some (s, rest) := by
  induction s with
  | nil =>
    intro fuel h
    obtain ⟨f, rfl⟩ : ∃ f, fuel = f + 1 := ⟨fuel - 1, by simp at h; omega⟩
    simp [escapeString, unquote]
  | cons c cs ih =>
    intro fuel h
    obtain ⟨f, rfl⟩ : ∃ f, fuel = f + 1 := ⟨fuel - 1, by omega⟩
    have hf : cs.length < f := by simp at h; omega
    simp only [escapeString, List.append_assoc]
    rw [unquote_escapeChar, ih f hf]
    rfl

theorem length_escapeChar (c : Char) : 1 ≤ (escapeChar c).length := by
  unfold escapeChar
  split_ifs <;> simp

theorem length_escapeString (s : List Char) : s.length ≤ (escapeString s).length := by
  induction s with
  | nil => simp [escapeString]
  | cons c cs ih =>
    have := length_escapeChar c
    simp only [escapeString, List.length_append, List.length_cons]
    omega

/-- Reading a string literal written by the encoder gives the string back. -/
theorem unquote_encode (s rest : List Char) :
    unquote ((escapeString s ++ '"' :: rest).length + 1) (escapeString s ++ '"' :: rest) =
      some (s, rest) := by
  apply unquote_escapeString
  have := length_escapeString s
  simp only [List.length_append, List.length_cons]
  omega


theorem toNat_digitChar : ∀ k, k < 10 → (Char.ofNat (48 + k)).toNat = 48 + k := by decide

theorem isDigit_digitChar : ∀ k, k < 10 → isDigit (Char.ofNat (48 + k)) = true := by decide

theorem digitChar_ne_zero : ∀ k, k < 10 → 0 < k → Char.ofNat (48 + k) ≠ '0' := by decide

theorem digitsAux_append (fuel : Nat) : ∀ n acc, digitsAux fuel n acc = digitsAux fuel n [] ++ acc := by
  induction fuel with
  | zero => intro n acc; simp [digitsAux]
  | succ f ih =>
    intro n acc
    unfold digitsAux
    split_ifs with h
    · simp
    · rw [ih (n / 10) (_ :: acc), ih (n / 10) [_]]
      simp

/-- The value `strconv.ParseUint` computes from a digit string. -/
theorem digitsAux_value (fuel : Nat) : ∀ n, n < 10 ^ fuel →
    (digitsAux fuel n []).foldl (fun a c => 10 * a + (c.toNat - 48)) 0 = n := by
  induction fuel with
  | zero => intro n h; simp at h; subst h; simp [digitsAux]
  | succ f ih =>
    intro n h
    unfold digitsAux
    split_ifs with h10
    · simp [toNat_digitChar n h10]
    · rw [digitsAux_append, List.foldl_append, ih (n / 10) (by rw [pow_succ] at h; omega)]
      simp [toNat_digitChar (n % 10) (by omega)]
      omega

theorem digitsAux_digits (fuel : Nat) : ∀ n, n < 10 ^ fuel →
    ∀ c ∈ digitsAux fuel n [], isDigit c = true := by
  induction fuel with
  | zero => intro n h; simp [digitsAux]
  | succ f ih =>
    intro n h
    unfold digitsAux
    split_ifs with h10
    · simp [isDigit_digitChar n h10]
    · rw [digitsAux_append]
      intro c hc
      rcases List.mem_append.mp hc with hc | hc
      · exact ih (n / 10) (by rw [pow_succ] at h; omega) c hc
      · simp at hc; subst hc; exact isDigit_digitChar _ (by omega)

theorem digitsAux_head (fuel : Nat) : ∀ n, 0 < n → n < 10 ^ fuel →
    ∃ d ds, digitsAux fuel n [] = d :: ds ∧ d ≠ '0' := by
  induction fuel with
  | zero => intro n h0 h; simp at h; omega
  | succ f ih =>
    intro n h0 h
    unfold digitsAux
    split_ifs with h10
    · exact ⟨_, [], rfl, digitChar_ne_zero n h10 h0⟩
    · rw [digitsAux_append]
      obtain ⟨d, ds, e, hd⟩ := ih (n / 10) (by omega) (by rw [pow_succ] at h; omega)
      exact ⟨d, ds ++ [_], by rw [e]; rfl, hd⟩

theorem span_digits (ds rest : List Char) (h : ∀ c ∈ ds, isDigit c = true) :
    (ds ++ ',' :: rest).span isDigit = (ds, ',' :: rest) := by
  rw [List.span_eq_take_drop]
  induction ds with
  | nil =>
    have hc : isDigit ',' = false := by decide
    simp [List.takeWhile, List.dropWhile, hc]
  | cons d ds ih =>
    have hd := h d (List.mem_cons_self _ _)
    have := ih (fun c hc => h c (List.mem_cons_of_mem _ hc))
    simp only [Prod.mk.injEq] at this
    simp [List.takeWhile, List.dropWhile, hd, this.1, this.2]

theorem scanNumber_encodeUint (n : Nat) (hn : n < 2 ^ 64) (rest : List Char) :
    scanNumber (encodeUint n ++ ',' :: rest) = some (encodeUint n, ',' :: rest) := by
  have h20 : n < 10 ^ 20 := by
    have : (2 : Nat) ^ 64 < 10 ^ 20 := by norm_num
    omega
  rcases Nat.eq_zero_or_pos n with h0 | h0
  · subst h0
    simp +decide [encodeUint, digitsAux, scanNumber, scanInt, scanFrac, scanExp]
  · obtain ⟨d, ds, e, hd⟩ := digitsAux_head 20 n h0 h20
    have hall := digitsAux_digits 20 n h20
    unfold encodeUint
    rw [e] at hall ⊢
    have hdd : isDigit d = true := hall d (List.mem_cons_self _ _)
    have hds : ∀ c ∈ ds, isDigit c = true := fun c hc => hall c (List.mem_cons_of_mem _ hc)
    have hminus : d ≠ '-' := by
      rintro rfl
      exact absurd hdd (by decide)
    have hfrac : ∀ lit, scanFrac lit (',' :: rest) = some (lit, ',' :: rest) := by
      intro lit
      simp +decide [scanFrac, scanExp]
    show scanNumber (d :: (ds ++ ',' :: rest)) = _
    unfold scanNumber
    simp only [if_neg hminus]
    unfold scanInt
    simp only [if_neg hd, hdd, if_true, span_digits ds rest hds, hfrac, List.nil_append]

theorem parseUint_encodeUint (n : Nat) (hn : n < 2 ^ 64) : parseUint (encodeUint n) = some n := by
  have h20 : n < 10 ^ 20 := by
    have : (2 : Nat) ^ 64 < 10 ^ 20 := by norm_num
    omega
  have hall := digitsAux_digits 20 n h20
  have hval := digitsAux_value 20 n h20
  have hne : digitsAux 20 n [] ≠ [] := by
    unfold digitsAux
    split_ifs
    · simp
    · rw [digitsAux_append]; simp
  unfold parseUint encodeUint
  rw [if_pos ⟨hne, by simpa [List.all_eq_true] using hall⟩]
  simp only [hval]
  rw [if_pos hn]


theorem encodePerson_shape (p : Person) :
    encodePerson p =
      '{' :: memberText "firstname".data (encodeString p.FirstName)
        (',' :: memberText "lastname".data (encodeString p.LastName)
        (',' :: memberText "city".data (encodeString p.City)
        (',' :: memberText "address".data (encodeString p.Address)
        (',' :: memberText "phone".data (encodeUint p.Phone)
        (',' :: memberText "married".data (encodeBool p.Married) ['}']))))) := by
  simp +decide [encodePerson, memberText, encodeString, escapeString, escapeChar]

theorem parseValue_string (f d : Nat) (v : String) (rest : List Char) :
    parseValue (f + 1) d (encodeString v ++ rest) = some (JShape.string v.data, rest) := by
  have h := unquote_encode v.data rest
  simp only [encodeString, List.cons_append, List.append_assoc, List.nil_append]
  unfold parseValue
  simp +decide only [if_false, if_true]
  rw [h]
  rfl


theorem isDigit_head_facts (d : Char) (h : isDigit d = true) :
    d ≠ '{' ∧ d ≠ '[' ∧ d ≠ '"' ∧ d ≠ 't' ∧ d ≠ 'f' ∧ d ≠ 'n' ∧ isSpace d = false := by
  refine ⟨?_, ?_, ?_, ?_, ?_, ?_, ?_⟩
  · rintro rfl; exact absurd h (by decide)
  · rintro rfl; exact absurd h (by decide)
  · rintro rfl; exact absurd h (by decide)
  · rintro rfl; exact absurd h (by decide)
  · rintro rfl; exact absurd h (by decide)
  · rintro rfl; exact absurd h (by decide)
  · cases hs : isSpace d with
    | false => rfl
    | true =>
      simp only [isSpace, Bool.or_eq_true, decide_eq_true_eq] at hs
      rcases hs with ((hs | hs) | hs) | hs <;> (subst hs; exact absurd h (by decide))

theorem encodeUint_head (n : Nat) (hn : n < 2 ^ 64) :
    ∃ d ds, encodeUint n = d :: ds ∧ isDigit d = true := by
  have h20 : n < 10 ^ 20 := by
    have : (2 : Nat) ^ 64 < 10 ^ 20 := by norm_num
    omega
  have hall := digitsAux_digits 20 n h20
  rcases Nat.eq_zero_or_pos n with h0 | h0
  · subst h0; exact ⟨'0', [], by decide, by decide⟩
  · obtain ⟨d, ds, e, _⟩ := digitsAux_head 20 n h0 h20
    exact ⟨d, ds, e, hall d (by rw [e]; exact List.mem_cons_self _ _)⟩

theorem parseValue_uint (f d n : Nat) (hn : n < 2 ^ 64) (rest : List Char) :
    parseValue (f + 1) d (encodeUint n ++ ',' :: rest) =
      some (JShape.number (encodeUint n), ',' :: rest) := by
  have hscan := scanNumber_encodeUint n hn rest
  obtain ⟨d, ds, e, hd⟩ := encodeUint_head n hn
  obtain ⟨h1, h2, h3, h4, h5, h6, _⟩ := isDigit_head_facts d hd
  rw [e] at hscan ⊢
  simp only [List.cons_append] at hscan ⊢
  unfold parseValue
  simp only [if_neg h1, if_neg h2, if_neg h3, if_neg h4, if_neg h5, if_neg h6, hscan]
  rfl

theorem parseValue_bool (f d : Nat) (b : Bool) (rest : List Char) :
    parseValue (f + 1) d (encodeBool b ++ rest) = some (JShape.bool b, rest) := by
  cases b <;> simp +decide [encodeBool, parseValue, dropLit]

theorem skipSpace_encodeString (v : String) (rest : List Char) :
    skipSpace (encodeString v ++ rest) = encodeString v ++ rest := by
  simp +decide [encodeString, skipSpace]

theorem skipSpace_encodeUint (n : Nat) (hn : n < 2 ^ 64) (rest : List Char) :
    skipSpace (encodeUint n ++ rest) = encodeUint n ++ rest := by
  obtain ⟨d, ds, e, hd⟩ := encodeUint_head n hn
  have := (isDigit_head_facts d hd).2.2.2.2.2.2
  rw [e]
  simp [skipSpace, this]

theorem skipSpace_encodeBool (b : Bool) (rest : List Char) :
    skipSpace (encodeBool b ++ rest) = encodeBool b ++ rest := by
  cases b <;> simp +decide [encodeBool, skipSpace]

theorem skipSpace_memberText (key val rest : List Char) :
    skipSpace (memberText key val rest) = memberText key val rest := by
  simp +decide [memberText, skipSpace]

/-- A member that is followed by another one. -/
theorem parseMembers_more (f d : Nat) (key val more : List Char) (v : JShape)
    (hsp : skipSpace (val ++ ',' :: more) = val ++ ',' :: more)
    (hval : parseValue (f + 1) d (val ++ ',' :: more) = some (v, ',' :: more))
    (hmore : skipSpace more = more) :
    parseMembers (f + 2) d (memberText key val (',' :: more)) =
      (parseMembers (f + 1) d more).map (fun r => ((key, v) :: r.1, r.2)) := by
  have h := unquote_encode key (':' :: (val ++ ',' :: more))
  unfold memberText
  rw [parseMembers]
  simp +decide only [if_true]
  rw [h]
  simp +decide [skipSpace, hsp, hval, hmore]

/-- The last member of an object. -/
theorem parseMembers_last (f d : Nat) (key val more : List Char) (v : JShape)
    (hsp : skipSpace (val ++ '}' :: more) = val ++ '}' :: more)
    (hval : parseValue (f + 1) d (val ++ '}' :: more) = some (v, '}' :: more)) :
    parseMembers (f + 2) d (memberText key val ('}' :: more)) = some ([(key, v)], more) := by
  have h := unquote_encode key (':' :: (val ++ '}' :: more))
  unfold memberText
  rw [parseMembers]
  simp +decide only [if_true]
  rw [h]
  simp +decide [skipSpace, hsp, hval]


theorem parseMembers_encodePerson (f d : Nat) (p : Person) (hp : p.Phone < 2 ^ 64) :
    parseMembers (f + 7) d (memberText "firstname".data (encodeString p.FirstName)
        (',' :: memberText "lastname".data (encodeString p.LastName)
        (',' :: memberText "city".data (encodeString p.City)
        (',' :: memberText "address".data (encodeString p.Address)
        (',' :: memberText "phone".data (encodeUint p.Phone)
        (',' :: memberText "married".data (encodeBool p.Married) ['}'])))))) =
      some (membersOf p, []) := by
  rw [parseMembers_more (f + 5) d _ _ _ _ (skipSpace_encodeString _ _) (parseValue_string _ _ _ _)
        (skipSpace_memberText _ _ _),
      parseMembers_more (f + 4) d _ _ _ _ (skipSpace_encodeString _ _) (parseValue_string _ _ _ _)
        (skipSpace_memberText _ _ _),
      parseMembers_more (f + 3) d _ _ _ _ (skipSpace_encodeString _ _) (parseValue_string _ _ _ _)
        (skipSpace_memberText _ _ _),
      parseMembers_more (f + 2) d _ _ _ _ (skipSpace_encodeString _ _) (parseValue_string _ _ _ _)
        (skipSpace_memberText _ _ _),
      parseMembers_more (f + 1) d _ _ _ _ (skipSpace_encodeUint _ hp _) (parseValue_uint _ _ _ hp _)
        (skipSpace_memberText _ _ _),
      parseMembers_last f d _ _ _ _ (skipSpace_encodeBool _ _) (parseValue_bool _ _ _ _)]
  rfl

theorem parseJSON_of_members (body : List Char) (ms : List (List Char × JShape))
    (hl : 1 ≤ body.length)
    (h : ∀ f, parseMembers (f + 7) 1 ('"' :: body) = some (ms, [])) :
    parseJSON ('{' :: '"' :: body) = some (JTop.members ms) := by
  obtain ⟨f, hf⟩ : ∃ f, 2 * ('{' :: '"' :: body).length + 2 = f + 7 :=
    ⟨2 * ('{' :: '"' :: body).length + 2 - 7, by simp only [List.length_cons]; omega⟩
  unfold parseJSON
  simp only [hf]
  simp +decide [skipSpace, h f]

theorem parseJSON_encodePerson (p : Person) (hp : p.Phone < 2 ^ 64) :
    parseJSON (encodePerson p) = some (JTop.members (membersOf p)) := by
  rw [encodePerson_shape]
  exact parseJSON_of_members _ _ (by simp only [List.length_append, List.length_cons]; omega)
    (fun f => parseMembers_encodePerson f 1 p hp)

theorem storeMembers_membersOf (p q : Person) (hp : p.Phone < 2 ^ 64) :
    storeMembers (membersOf p) q none = (p, none) := by
  have hu := parseUint_encodeUint p.Phone hp
  simp +decide [storeMembers, membersOf, storeMember, storeString, storeUint, storeBool, hu]

/-- Decoding the encoding of a `Person` gives that `Person`, whatever the
target held before, and no error. -/
theorem jsonUnmarshal_jsonMarshal (p q : Person) (hp : p.Phone < 2 ^ 64) :
    jsonUnmarshal (jsonMarshal p).1 q = (p, none) := by
  simp only [jsonUnmarshal, jsonMarshal, parseJSON_encodePerson p hp, storeMembers_membersOf p q hp]

/-! ## The substrate: reads after writes -/

theorem history_append (s t : Ledger) (k : String) :
    history (s ++ t) k = history s k ++ history t k := by
  simp [history]

theorem history_single (k k1 : String) (v : Version) :
    history [(k1, v)] k = if k1 = k then [v] else [] := by
  by_cases h : k1 = k <;> simp [history, h]

theorem latest_append_single (s : Ledger) (k k1 : String) (v : Version) :
    latest (s ++ [(k1, v)]) k = if k1 = k then some v.Value else latest s k := by
  unfold latest
  rw [history_append, history_single]
  by_cases h : k1 = k <;> simp [h]

theorem latest_eq_none_iff (s : Ledger) (k : String) : latest s k = none ↔ history s k = [] := by
  unfold latest
  cases h : (history s k).getLast? with
  | none => simpa using List.getLast?_eq_none_iff.mp h
  | some v =>
    simp only [Option.map_some', reduceCtorEq, false_iff]
    intro hnil
    rw [hnil] at h
    simp at h

theorem latest_append_of_some (s t : Ledger) (k : String) (h : latest s k ≠ none) :
    latest (s ++ t) k ≠ none := by
  rw [Ne, latest_eq_none_iff] at h ⊢
  rw [history_append]
  intro hnil
  exact h (List.append_eq_nil.mp hnil).1

theorem latest_append_other (s t : Ledger) (k : String) (h : ∀ e ∈ t, e.1 ≠ k) :
    latest (s ++ t) k = latest s k := by
  unfold latest
  rw [history_append]
  have : history t k = [] := by
    unfold history
    rw [List.map_eq_nil_iff, List.filter_eq_nil_iff]
    intro e he
    simpa using h e he
  rw [this, List.append_nil]

theorem GetState_ok (c : Ctx) (s : Ledger) (k : String) (h : c.getErr k = none) :
    GetState c s k = (latest s k, none) := by
  simp [GetState, h]

theorem GetState_fst_of_none (c : Ctx) (s : Ledger) (k : String) (h : latest s k = none) :
    (GetState c s k).1 = none := by
  unfold GetState
  cases c.getErr k <;> simp [h]

theorem PutState_ok (c : Ctx) (s : Ledger) (k v : String) (h : c.putErr k v = none) :
    PutState c s k v =
      (s ++ [(k, { TxId := c.txId, Timestamp := c.timestamp, Value := v })], none) := by
  simp [PutState, h]

theorem PutState_err (c : Ctx) (s : Ledger) (k v : String) (e : Error)
    (h : c.putErr k v = some e) : PutState c s k v = (s, some e) := by
  simp [PutState, h]

theorem PutState_failed (c : Ctx) (s : Ledger) (k v : String)
    (h : (PutState c s k v).2 ≠ none) : (PutState c s k v).1 = s := by
  unfold PutState at h ⊢
  cases hp : c.putErr k v with
  | none => simp [hp] at h
  | some e => simp

theorem PutState_succeeded (c : Ctx) (s : Ledger) (k v : String)
    (h : (PutState c s k v).2 = none) :
    c.putErr k v = none ∧
      (PutState c s k v).1 =
        s ++ [(k, { TxId := c.txId, Timestamp := c.timestamp, Value := v })] := by
  unfold PutState at h ⊢
  cases hp : c.putErr k v with
  | none => simp
  | some e => simp [hp] at h

theorem PutState_extends (c : Ctx) (s : Ledger) (k v : String) :
    (PutState c s k v).1 = s ∨
      (PutState c s k v).1 =
        s ++ [(k, { TxId := c.txId, Timestamp := c.timestamp, Value := v })] := by
  unfold PutState
  cases c.putErr k v <;> simp

/-! ## The contract: what each operation does to the ledger -/

theorem QueryPerson_present (c : Ctx) (s : Ledger) (k v : String) (hget : c.getErr k = none)
    (hv : latest s k = some v) :
    QueryPerson c s k = Except.ok (jsonUnmarshal v Person.zero).1 := by
  simp [QueryPerson, GetState_ok c s k hget, hv]

theorem QueryPerson_absent (c : Ctx) (s : Ledger) (k : String) (hget : c.getErr k = none)
    (hv : latest s k = none) :
    QueryPerson c s k = Except.error ("person with id " ++ k ++ " does not exist") := by
  simp [QueryPerson, GetState_ok c s k hget, hv]

theorem QueryPerson_getErr (c : Ctx) (s : Ledger) (k : String) (e : Error)
    (hget : c.getErr k = some e) :
    QueryPerson c s k = Except.error ("failed to read from world state. " ++ e) := by
  simp [QueryPerson, GetState, hget]

/-- A successful `QueryPerson` read a committed value without a substrate error. -/
theorem QueryPerson_ok_inv (c : Ctx) (s : Ledger) (k : String) (p : Person)
    (h : QueryPerson c s k = Except.ok p) :
    c.getErr k = none ∧ ∃ v, latest s k = some v ∧ p = (jsonUnmarshal v Person.zero).1 := by
  unfold QueryPerson GetState at h
  cases hg : c.getErr k with
  | some e => simp [hg] at h
  | none =>
    cases hl : latest s k with
    | none => simp [hg, hl] at h
    | some v =>
      simp only [hg, hl, Except.ok.injEq] at h
      exact ⟨rfl, v, rfl, h.symm⟩

theorem CreatePerson_present (c : Ctx) (s : Ledger) (id firstName lastName city address : String)
    (phone : Nat) (married : Bool) (hget : c.getErr id = none) (h : latest s id ≠ none) :
    CreatePerson c s id firstName lastName city address phone married =
      (s, some ("person with id " ++ id ++ " already exists")) := by
  unfold CreatePerson
  rw [GetState_ok c s id hget]
  cases hl : latest s id with
  | none => exact absurd hl h
  | some v => rfl

/-- When `GetState` hands `CreatePerson` no bytes, the call is the `PutState`
of the encoded record. -/
theorem CreatePerson_nil (c : Ctx) (s : Ledger) (id firstName lastName city address : String)
    (phone : Nat) (married : Bool) (h : (GetState c s id).1 = none) :
    CreatePerson c s id firstName lastName city address phone married =
      PutState c s id (jsonMarshal
        { FirstName := firstName, LastName := lastName, City := city, Address := address,
          Phone := phone, Married := married }).1 := by
  unfold CreatePerson
  rw [h]
  rfl

theorem CreatePerson_extends (c : Ctx) (s : Ledger) (id firstName lastName city address : String)
    (phone : Nat) (married : Bool) :
    ∃ t, (CreatePerson c s id firstName lastName city address phone married).1 = s ++ t ∧
      ∀ e ∈ t, e.1 = id := by
  cases h : (GetState c s id).1 with
  | some v =>
    refine ⟨[], ?_, by simp⟩
    unfold CreatePerson
    rw [h]
    simp
  | none =>
    rw [CreatePerson_nil c s id _ _ _ _ _ _ h]
    rcases PutState_extends c s id (jsonMarshal
        { FirstName := firstName, LastName := lastName, City := city, Address := address,
          Phone := phone, Married := married }).1 with h1 | h1
    · exact ⟨[], by rw [h1]; simp, by simp⟩
    · exact ⟨_, h1, by simp⟩

theorem InitLedger_loop_extends (c : Ctx) (l : List (String × Person)) :
    ∀ s, ∃ t, (InitLedger.loop c s l).1 = s ++ t ∧ ∀ e ∈ t, e.1 ∈ l.map Prod.fst := by
  induction l with
  | nil => intro s; exact ⟨[], by simp [InitLedger.loop], by simp⟩
  | cons a l ih =>
    intro s
    obtain ⟨id, person⟩ := a
    unfold InitLedger.loop
    cases hp : c.putErr id (jsonMarshal person).1 with
    | some e =>
      rw [PutState_err c s id _ e hp]
      exact ⟨[], by simp, by simp⟩
    | none =>
      rw [PutState_ok c s id _ hp]
      obtain ⟨t, ht, hmem⟩ := ih (s ++ [(id, ⟨c.txId, c.timestamp, (jsonMarshal person).1⟩)])
      refine ⟨(id, ⟨c.txId, c.timestamp, (jsonMarshal person).1⟩) :: t,
        by simp only [ht, List.append_assoc, List.singleton_append], ?_⟩
      intro e he
      rcases List.mem_cons.mp he with he | he
      · subst he; simp
      · have := hmem e he
        simp only [List.map_cons, List.mem_cons]
        exact Or.inr this

theorem update_extends (c : Ctx) (s : Ledger) (id : String) (f : Person → Person) :
    ∃ t, (match QueryPerson c s id with
          | Except.error err => (s, some err)
          | Except.ok person => PutState c s id (jsonMarshal (f person)).1).1 = s ++ t ∧
      ∀ e ∈ t, e.1 = id := by
  cases QueryPerson c s id with
  | error err => exact ⟨[], by simp, by simp⟩
  | ok person =>
    rcases PutState_extends c s id (jsonMarshal (f person)).1 with h1 | h1
    · exact ⟨[], by simp [h1], by simp⟩
    · exact ⟨_, h1, by simp⟩

/-- Every invocation only appends to the ledger. -/
theorem run_extends (c : Ctx) (s : Ledger) (op : Op) : ∃ t, (op.run c s).1 = s ++ t := by
  cases op with
  | initLedger =>
    obtain ⟨t, ht, _⟩ := InitLedger_loop_extends c (InitLedger.ids.zip InitLedger.people) s
    exact ⟨t, ht⟩
  | createPerson id firstName lastName city address phone married =>
    obtain ⟨t, ht, _⟩ := CreatePerson_extends c s id firstName lastName city address phone married
    exact ⟨t, ht⟩
  | queryPerson id => exact ⟨[], by simp [Op.run]⟩
  | queryAllPersons => exact ⟨[], by simp [Op.run]⟩
  | updateLocation id newCity newAddress =>
    obtain ⟨t, ht, _⟩ := update_extends c s id
      (fun person => { person with City := newCity, Address := newAddress })
    exact ⟨t, ht⟩
  | updatePhone id newPhone =>
    obtain ⟨t, ht, _⟩ := update_extends c s id (fun person => { person with Phone := newPhone })
    exact ⟨t, ht⟩
  | updateMarriage id newMarriage =>
    obtain ⟨t, ht, _⟩ := update_extends c s id
      (fun person => { person with Married := newMarriage })
    exact ⟨t, ht⟩
  | getUpdatesHistory id => exact ⟨[], by simp [Op.run]⟩

theorem runAll_extends (ops : List (Ctx × Op)) : ∀ s, ∃ t, runAll s ops = s ++ t := by
  induction ops with
  | nil => intro s; exact ⟨[], by simp [runAll]⟩
  | cons a ops ih =>
    intro s
    obtain ⟨c, op⟩ := a
    obtain ⟨t1, h1⟩ := run_extends c s op
    obtain ⟨t2, h2⟩ := ih (op.run c s).1
    refine ⟨t1 ++ t2, ?_⟩
    show runAll (op.run c s).1 ops = _
    rw [h2, h1, List.append_assoc]

/-- A key that has a committed value keeps one, whatever is invoked. -/
theorem runAll_present (ops : List (Ctx × Op)) (s : Ledger) (k : String)
    (h : latest s k ≠ none) : latest (runAll s ops) k ≠ none := by
  obtain ⟨t, ht⟩ := runAll_extends ops s
  rw [ht]
  exact latest_append_of_some s t k h

/-- The shape shared by the three updates: read the record, change it, put it
back. When that succeeds on a key holding the encoding of `p`, exactly one
version is committed, the encoding of the changed `p`. -/
theorem update_succeeded (c : Ctx) (s : Ledger) (id : String) (f : Person → Person) (p : Person)
    (hp : p.Phone < 2 ^ 64) (hheld : latest s id = some (jsonMarshal p).1)
    (hok : (match QueryPerson c s id with
            | Except.error err => (s, some err)
            | Except.ok person => PutState c s id (jsonMarshal (f person)).1).2 = none) :
    (match QueryPerson c s id with
     | Except.error err => (s, some err)
     | Except.ok person => PutState c s id (jsonMarshal (f person)).1).1 =
      s ++ [(id, ⟨c.txId, c.timestamp, (jsonMarshal (f p)).1⟩)] := by
  cases hq : QueryPerson c s id with
  | error err => rw [hq] at hok; simp at hok
  | ok person =>
    rw [hq] at hok
    obtain ⟨_, v, hv, hperson⟩ := QueryPerson_ok_inv c s id person hq
    rw [hheld] at hv
    have hv' : v = (jsonMarshal p).1 := (Option.some.inj hv).symm
    rw [hv', jsonUnmarshal_jsonMarshal p Person.zero hp] at hperson
    subst hperson
    exact (PutState_succeeded c s id _ hok).2

/-- Reading back a key whose latest value is the encoding of `p`. -/
theorem QueryPerson_encoded (c : Ctx) (s : Ledger) (id : String) (p : Person)
    (hp : p.Phone < 2 ^ 64) (hget : c.getErr id = none)
    (hheld : latest s id = some (jsonMarshal p).1) : QueryPerson c s id = Except.ok p := by
  rw [QueryPerson_present c s id _ hget hheld, jsonUnmarshal_jsonMarshal p Person.zero hp]

theorem latest_after_put (c : Ctx) (s : Ledger) (id v : String) :
    latest (s ++ [(id, ⟨c.txId, c.timestamp, v⟩)]) id = some v := by
  rw [latest_append_single]
  simp

/-! ## History -/

theorem Write_run_succeeded (c : Ctx) (s : Ledger) (id : String) (w : Write) (p : Person)
    (hp : p.Phone < 2 ^ 64) (hheld : latest s id = some (jsonMarshal p).1)
    (hok : (w.run c s id).2 = none) :
    (w.run c s id).1 = s ++ [(id, ⟨c.txId, c.timestamp, (jsonMarshal (w.apply p)).1⟩)] := by
  cases w with
  | location newCity newAddress =>
    exact update_succeeded c s id
      (fun person => { person with City := newCity, Address := newAddress }) p hp hheld hok
  | phone newPhone =>
    exact update_succeeded c s id (fun person => { person with Phone := newPhone }) p hp hheld hok
  | marriage newMarriage =>
    exact update_succeeded c s id (fun person => { person with Married := newMarriage }) p hp
      hheld hok

theorem Write_apply_phone (p : Person) (w : Write) (hp : p.Phone < 2 ^ 64)
    (hw : w.wellTyped = true) : (w.apply p).Phone < 2 ^ 64 := by
  cases w with
  | location newCity newAddress => exact hp
  | phone newPhone => simpa [Write.wellTyped] using hw
  | marriage newMarriage => exact hp

/-- The ledger after a sequence of successful updates of a key: its history
grows by the encodings of the replayed records, and its latest value is the
encoding of the final record. -/
theorem runWrites_history (id : String) (ws : List (Ctx × Write)) :
    ∀ (s : Ledger) (p : Person), p.Phone < 2 ^ 64 → latest s id = some (jsonMarshal p).1 →
      (∀ w ∈ ws, w.2.wellTyped = true) → writesOk id s ws = true →
      history (runWrites id s ws) id = history s id ++ (replay p ws).map Update.version ∧
      latest (runWrites id s ws) id = some (jsonMarshal (finalPerson p ws)).1 ∧
      (finalPerson p ws).Phone < 2 ^ 64 ∧
      (∀ u ∈ replay p ws, u.PersonRecord.Phone < 2 ^ 64) := by
  induction ws with
  | nil =>
    intro s p hp hheld _ _
    exact ⟨by simp [runWrites, replay], hheld, hp, by simp [replay]⟩
  | cons a ws ih =>
    intro s p hp hheld hty hok
    obtain ⟨c, w⟩ := a
    simp only [writesOk, Bool.and_eq_true, Option.isNone_iff_eq_none] at hok
    have hw : w.wellTyped = true := hty (c, w) (List.mem_cons_self _ _)
    have hstep := Write_run_succeeded c s id w p hp hheld hok.1
    have hp1 := Write_apply_phone p w hp hw
    have hheld1 : latest (w.run c s id).1 id = some (jsonMarshal (w.apply p)).1 := by
      rw [hstep]; exact latest_after_put c s id _
    obtain ⟨h1, h2, h3, h4⟩ := ih (w.run c s id).1 (w.apply p) hp1 hheld1
      (fun w1 hw1 => hty w1 (List.mem_cons_of_mem _ hw1)) hok.2
    refine ⟨?_, h2, h3, ?_⟩
    · show history (runWrites id (w.run c s id).1 ws) id = _
      rw [h1, hstep, history_append, history_single]
      simp [replay, Update.version]
    · intro u hu
      simp only [replay, List.mem_cons] at hu
      rcases hu with hu | hu
      · subst hu; exact hp1
      · exact h4 u hu

theorem Version_update_version (u : Update) (hu : u.PersonRecord.Phone < 2 ^ 64) :
    u.version.update = u := by
  simp [Update.version, Version.update, jsonUnmarshal_jsonMarshal u.PersonRecord Person.zero hu]

theorem GetUpdatesHistory_loop_ok (c : Ctx) (hnext : ∀ i, c.nextErr i = none)
    (l : List Version) : ∀ (i : Nat) (acc : List Update),
      GetUpdatesHistory.loop c i l acc = Except.ok (acc ++ l.map Version.update) := by
  induction l with
  | nil => intro i acc; simp [GetUpdatesHistory.loop]
  | cons v l ih =>
    intro i acc
    simp only [GetUpdatesHistory.loop, hnext i, ih, List.map_cons, List.append_assoc,
      List.singleton_append]
    rfl

theorem map_update_version (l : List Update) (h : ∀ u ∈ l, u.PersonRecord.Phone < 2 ^ 64) :
    (l.map Update.version).map Version.update = l := by
  induction l with
  | nil => rfl
  | cons u l ih =>
    simp only [List.map_cons]
    rw [Version_update_version u (h u (List.mem_cons_self _ _)),
      ih (fun u1 hu1 => h u1 (List.mem_cons_of_mem _ hu1))]

theorem getLast_replay (p : Person) (ws : List (Ctx × Write)) : ∀ (u : Update),
    u.PersonRecord = p →
    ((u :: replay p ws).getLast?).map Update.PersonRecord = some (finalPerson p ws) := by
  induction ws generalizing p with
  | nil => intro u hu; simp [replay, finalPerson, hu]
  | cons a ws ih =>
    intro u _
    obtain ⟨c, w⟩ := a
    have := ih (w.apply p) ⟨c.txId, c.timestamp, w.apply p⟩ rfl
    simpa [replay, finalPerson, List.getLast?_cons_cons] using this

theorem length_replay (p : Person) (ws : List (Ctx × Write)) :
    (replay p ws).length = ws.length := by
  induction ws generalizing p with
  | nil => rfl
  | cons a ws ih =>
    obtain ⟨c, w⟩ := a
    simp [replay, ih]

/-! ## Key order and the range scan -/

theorem ltChars_irrefl (a : List Char) : ltChars a a = false := by
  induction a with
  | nil => rfl
  | cons x xs ih => simp [ltChars, ih]

theorem ltChars_trans : ∀ (a b c : List Char),
    ltChars a b = true → ltChars b c = true → ltChars a c = true := by
  intro a
  induction a with
  | nil =>
    intro b c hab hbc
    cases b with
    | nil => simp [ltChars] at hab
    | cons y ys =>
      cases c with
      | nil => simp [ltChars] at hbc
      | cons z zs => rfl
  | cons x xs ih =>
    intro b c hab hbc
    cases b with
    | nil => simp [ltChars] at hab
    | cons y ys =>
      cases c with
      | nil => simp [ltChars] at hbc
      | cons z zs =>
        unfold ltChars at hab hbc ⊢
        split_ifs at hab hbc ⊢ <;> first | rfl | omega | exact ih ys zs hab hbc

theorem ltChars_total : ∀ (a b : List Char),
    ltChars a b = false → ltChars b a = false → a = b := by
  intro a
  induction a with
  | nil =>
    intro b hab _
    cases b with
    | nil => rfl
    | cons y ys => simp [ltChars] at hab
  | cons x xs ih =>
    intro b hab hba
    cases b with
    | nil => simp [ltChars] at hba
    | cons y ys =>
      unfold ltChars at hab hba
      split_ifs at hab hba with h1 h2
      · have hxy : x = y := by
          rw [char_eq_of_toNat (rfl : x.toNat = x.toNat), char_eq_of_toNat (rfl : y.toNat = y.toNat)]
          congr 1
          omega
        rw [hxy, ih ys hab hba]

theorem keyLt_irrefl (a : String) : keyLt a a = false := ltChars_irrefl a.data

theorem keyLt_trans (a b c : String) (hab : keyLt a b = true) (hbc : keyLt b c = true) :
    keyLt a c = true := ltChars_trans a.data b.data c.data hab hbc

theorem keyLt_total (a b : String) (hab : keyLt a b = false) (hne : a ≠ b) :
    keyLt b a = true := by
  cases h : keyLt b a with
  | true => rfl
  | false => exact absurd (String.ext (ltChars_total a.data b.data hab h)) hne

theorem mem_insertKey (k x : String) (l : List String) :
    x ∈ insertKey k l ↔ x = k ∨ x ∈ l := by
  induction l with
  | nil => simp [insertKey]
  | cons y ys ih =>
    unfold insertKey
    split_ifs with h1 h2
    · simp
    · subst h2; simp
    · simp only [List.mem_cons, ih]
      tauto

theorem sorted_insertKey (k : String) (l : List String)
    (h : l.Pairwise (fun a b => keyLt a b = true)) :
    (insertKey k l).Pairwise (fun a b => keyLt a b = true) := by
  induction l with
  | nil => simp [insertKey]
  | cons y ys ih =>
    rw [List.pairwise_cons] at h
    unfold insertKey
    split_ifs with h1 h2
    · rw [List.pairwise_cons]
      refine ⟨?_, List.pairwise_cons.mpr h⟩
      intro b hb
      rcases List.mem_cons.mp hb with hb | hb
      · rw [hb]; exact h1
      · exact keyLt_trans k y b h1 (h.1 b hb)
    · exact List.pairwise_cons.mpr h
    · rw [List.pairwise_cons]
      refine ⟨?_, ih h.2⟩
      intro b hb
      rcases (mem_insertKey k b ys).mp hb with hb | hb
      · rw [hb]
        exact keyLt_total k y (by simpa using h1) h2
      · exact h.1 b hb

theorem mem_keys (s : Ledger) (k : String) : k ∈ keys s ↔ k ∈ s.map Prod.fst := by
  induction s with
  | nil => simp [keys]
  | cons e s ih =>
    have : keys (e :: s) = insertKey e.1 (keys s) := rfl
    rw [this, mem_insertKey, ih]
    simp [eq_comm]

theorem sorted_keys (s : Ledger) : (keys s).Pairwise (fun a b => keyLt a b = true) := by
  induction s with
  | nil => simp [keys]
  | cons e s ih => exact sorted_insertKey e.1 (keys s) ih

theorem mem_map_fst_iff_latest (s : Ledger) (k : String) :
    k ∈ s.map Prod.fst ↔ latest s k ≠ none := by
  rw [Ne, latest_eq_none_iff]
  unfold history
  rw [List.map_eq_nil_iff, List.filter_eq_nil_iff]
  constructor
  · intro h hall
    obtain ⟨e, he, hk⟩ := List.mem_map.mp h
    exact hall e he (by simpa using hk)
  · intro h
    by_contra hk
    apply h
    intro e he
    simp only [decide_eq_true_eq]
    intro hek
    exact hk (List.mem_map.mpr ⟨e, he, hek⟩)

theorem inRange_full (k : String) : inRange "" "" k = true := by
  simp [inRange]

/-- The entries of the full range scan: the keys in key order, each with its
latest value. -/
theorem scan_entries (s : Ledger) (l : List String) (h : ∀ k ∈ l, latest s k ≠ none) :
    (l.filterMap (fun k => (latest s k).map (fun v => (k, v)))).map Prod.fst = l ∧
    ∀ e ∈ l.filterMap (fun k => (latest s k).map (fun v => (k, v))),
      latest s e.1 = some e.2 := by
  induction l with
  | nil => simp
  | cons k l ih =>
    obtain ⟨ih1, ih2⟩ := ih (fun k1 hk1 => h k1 (List.mem_cons_of_mem _ hk1))
    have hk := h k (List.mem_cons_self _ _)
    cases hl : latest s k with
    | none => exact absurd hl hk
    | some v =>
      constructor
      · simp only [List.filterMap_cons, hl, Option.map_some', List.map_cons, ih1]
      · intro e he
        simp only [List.filterMap_cons, hl, Option.map_some', List.mem_cons] at he
        rcases he with he | he
        · subst he; exact hl
        · exact ih2 e he

theorem QueryAllPersons_loop_ok (c : Ctx) (hnext : ∀ i, c.nextErr i = none)
    (l : List (String × String)) : ∀ (i : Nat) (acc : List QueryResult),
      QueryAllPersons.loop c i l acc =
        Except.ok (acc ++ l.map (fun kv =>
          ({ Key := kv.1, Record := (jsonUnmarshal kv.2 Person.zero).1 } : QueryResult))) := by
  induction l with
  | nil => intro i acc; simp [QueryAllPersons.loop]
  | cons v l ih =>
    intro i acc
    simp only [QueryAllPersons.loop, hnext i, ih, List.map_cons, List.append_assoc,
      List.singleton_append]

/-- What `QueryAllPersons` returns when the scan and its iterator work. -/
theorem QueryAllPersons_ok (c : Ctx) (s : Ledger) (hrange : c.rangeErr = none)
    (hnext : ∀ i, c.nextErr i = none) :
    QueryAllPersons c s =
      Except.ok (((keys s).filterMap (fun k => (latest s k).map (fun v => (k, v)))).map
        (fun kv => ({ Key := kv.1, Record := (jsonUnmarshal kv.2 Person.zero).1 } : QueryResult)))
    := by
  unfold QueryAllPersons GetStateByRange
  simp only [hrange]
  rw [QueryAllPersons_loop_ok c hnext]
  have : (keys s).filter (inRange "" "") = keys s :=
    List.filter_eq_self.mpr (fun k _ => inRange_full k)
  rw [this]
  rfl

/-! ## The keys written by successful invocations -/

theorem InitLedger_succeeded (c : Ctx) (s : Ledger) (h : (InitLedger c s).2 = none) :
    (InitLedger c s).1 =
      s ++ [("2340001122", ⟨c.txId, c.timestamp, (jsonMarshal
              { FirstName := "Lorem", LastName := "Ipsum", City := "Dolgoprudny",
                Address := "Pervomayskaya 15", Phone := 89001112233, Married := false }).1⟩),
            ("1235553333", ⟨c.txId, c.timestamp, (jsonMarshal
              { FirstName := "Dolor", LastName := "Sit", City := "Moscow",
                Address := "Pushkina 11", Phone := 89001230000, Married := false }).1⟩)] := by
  simp only [InitLedger, InitLedger.ids, InitLedger.people, List.zip_cons_cons, List.zip_nil_right,
    InitLedger.loop, PutState] at h ⊢
  cases h1 : c.putErr "2340001122" (jsonMarshal
      { FirstName := "Lorem", LastName := "Ipsum", City := "Dolgoprudny",
        Address := "Pervomayskaya 15", Phone := 89001112233, Married := false }).1 with
  | some e => simp [h1] at h
  | none =>
    simp only [h1] at h ⊢
    cases h2 : c.putErr "1235553333" (jsonMarshal
        { FirstName := "Dolor", LastName := "Sit", City := "Moscow",
          Address := "Pushkina 11", Phone := 89001230000, Married := false }).1 with
    | some e => simp [h2] at h
    | none => simp [h2]

theorem update_ok_keys (c : Ctx) (s : Ledger) (id : String) (f : Person → Person)
    (hok : (match QueryPerson c s id with
            | Except.error err => (s, some err)
            | Except.ok person => PutState c s id (jsonMarshal (f person)).1).2 = none)
    (k : String) :
    k ∈ ((match QueryPerson c s id with
          | Except.error err => (s, some err)
          | Except.ok person => PutState c s id (jsonMarshal (f person)).1).1).map Prod.fst ↔
      k ∈ s.map Prod.fst := by
  cases hq : QueryPerson c s id with
  | error err => exact Iff.rfl
  | ok person =>
    rw [hq] at hok
    simp only
    obtain ⟨_, v, hv, _⟩ := QueryPerson_ok_inv c s id person hq
    have hid : id ∈ s.map Prod.fst := (mem_map_fst_iff_latest s id).mpr (by rw [hv]; simp)
    rw [(PutState_succeeded c s id _ hok).2]
    simp only [List.map_append, List.map_cons, List.map_nil, List.mem_append, List.mem_singleton]
    constructor
    · rintro (h | h)
      · exact h
      · rw [h]; exact hid
    · intro h
      exact Or.inl h

/-- A successful invocation adds exactly the keys it creates. -/
theorem run_ok_keys (c : Ctx) (s : Ledger) (op : Op) (hok : (op.run c s).2 = none)
    (k : String) :
    k ∈ (op.run c s).1.map Prod.fst ↔ k ∈ s.map Prod.fst ∨ k ∈ op.created := by
  cases op with
  | initLedger =>
    have h := InitLedger_succeeded c s hok
    have h1 : (Op.initLedger.run c s).1 = _ := h
    rw [h1]
    simp [Op.created, InitLedger.ids]
  | createPerson id firstName lastName city address phone married =>
    cases hg : (GetState c s id).1 with
    | some v =>
      exfalso
      simp only [Op.run, CreatePerson, hg] at hok
      exact Option.noConfusion hok
    | none =>
      simp only [Op.run] at hok ⊢
      rw [CreatePerson_nil c s id _ _ _ _ _ _ hg] at hok ⊢
      rw [(PutState_succeeded c s id _ hok).2]
      simp [Op.created]
  | queryPerson id => simp [Op.run, Op.created]
  | queryAllPersons => simp [Op.run, Op.created]
  | updateLocation id newCity newAddress =>
    have := update_ok_keys c s id
      (fun person => { person with City := newCity, Address := newAddress }) hok k
    simpa [Op.created] using this
  | updatePhone id newPhone =>
    have := update_ok_keys c s id (fun person => { person with Phone := newPhone }) hok k
    simpa [Op.created] using this
  | updateMarriage id newMarriage =>
    have := update_ok_keys c s id (fun person => { person with Married := newMarriage }) hok k
    simpa [Op.created] using this
  | getUpdatesHistory id => simp [Op.run, Op.created]

theorem runAll_ok_keys (ops : List (Ctx × Op)) : ∀ (s : Ledger), allOk s ops = true →
    ∀ k, k ∈ (runAll s ops).map Prod.fst ↔ k ∈ s.map Prod.fst ∨ k ∈ createdKeys ops := by
  induction ops with
  | nil => intro s _ k; simp [runAll, createdKeys]
  | cons a ops ih =>
    intro s hok k
    obtain ⟨c, op⟩ := a
    simp only [allOk, Bool.and_eq_true, Option.isNone_iff_eq_none] at hok
    show k ∈ (runAll (op.run c s).1 ops).map Prod.fst ↔ _
    rw [ih (op.run c s).1 hok.2 k, run_ok_keys c s op hok.1 k]
    simp only [createdKeys, List.mem_append]
    tauto

/-! ## Substrate failures inside the iterator loops -/

theorem QueryAllPersons_loop_err (c : Ctx) (e : Error) (l : List (String × String)) :
    ∀ (n i : Nat) (acc : List QueryResult), i < l.length →
      (∀ j, j < i → c.nextErr (n + j) = none) → c.nextErr (n + i) = some e →
      QueryAllPersons.loop c n l acc = Except.error e := by
  induction l with
  | nil => intro n i acc hi; simp at hi
  | cons kv l ih =>
    intro n i acc hi hbefore hat
    cases i with
    | zero =>
      rw [Nat.add_zero] at hat
      simp only [QueryAllPersons.loop, hat]
    | succ i =>
      have h0 : c.nextErr n = none := by simpa using hbefore 0 (Nat.succ_pos i)
      simp only [QueryAllPersons.loop, h0]
      apply ih (n + 1) i _ (by simpa using hi)
      · intro j hj
        have := hbefore (j + 1) (by omega)
        rwa [show n + (j + 1) = n + 1 + j by omega] at this
      · rwa [show n + (i + 1) = n + 1 + i by omega] at hat

theorem GetUpdatesHistory_loop_err (c : Ctx) (e : Error) (l : List Version) :
    ∀ (n i : Nat) (acc : List Update), i < l.length →
      (∀ j, j < i → c.nextErr (n + j) = none) → c.nextErr (n + i) = some e →
      GetUpdatesHistory.loop c n l acc = Except.error e := by
  induction l with
  | nil => intro n i acc hi; simp at hi
  | cons v l ih =>
    intro n i acc hi hbefore hat
    cases i with
    | zero =>
      rw [Nat.add_zero] at hat
      simp only [GetUpdatesHistory.loop, hat]
    | succ i =>
      have h0 : c.nextErr n = none := by simpa using hbefore 0 (Nat.succ_pos i)
      simp only [GetUpdatesHistory.loop, h0]
      apply ih (n + 1) i _ (by simpa using hi)
      · intro j hj
        have := hbefore (j + 1) (by omega)
        rwa [show n + (j + 1) = n + 1 + j by omega] at this
      · rwa [show n + (i + 1) = n + 1 + i by omega] at hat

/-- The full range scan yields one entry per written key. -/
theorem scan_length (s : Ledger) :
    (((keys s).filter (inRange "" "")).filterMap
      (fun k => (latest s k).map (fun v => (k, v)))).length = (keys s).length := by
  have hfilter : (keys s).filter (inRange "" "") = keys s :=
    List.filter_eq_self.mpr (fun k _ => inRange_full k)
  have hpresent : ∀ k ∈ keys s, latest s k ≠ none :=
    fun k hk => (mem_map_fst_iff_latest _ k).mp ((mem_keys _ k).mp hk)
  rw [hfilter]
  have := congrArg List.length (scan_entries s (keys s) hpresent).1
  simpa using this

/-! ## What an invocation leaves of a stored record -/

/-- The shape shared by the three updates, on a key holding the encoding of
`p`: the key then holds the encoding of `p` or of the changed `p`. -/
theorem update_same_key (c : Ctx) (s : Ledger) (k : String) (f : Person → Person) (p : Person)
    (hp : p.Phone < 2 ^ 64) (hheld : latest s k = some (jsonMarshal p).1) :
    latest (match QueryPerson c s k with
            | Except.error err => (s, some err)
            | Except.ok person => PutState c s k (jsonMarshal (f person)).1).1 k =
        some (jsonMarshal p).1 ∨
    latest (match QueryPerson c s k with
            | Except.error err => (s, some err)
            | Except.ok person => PutState c s k (jsonMarshal (f person)).1).1 k =
        some (jsonMarshal (f p)).1 := by
  cases hq : QueryPerson c s k with
  | error err => exact Or.inl hheld
  | ok person =>
    obtain ⟨_, v, hv, hperson⟩ := QueryPerson_ok_inv c s k person hq
    rw [hheld] at hv
    have hv1 : v = (jsonMarshal p).1 := (Option.some.inj hv).symm
    rw [hv1, jsonUnmarshal_jsonMarshal p Person.zero hp] at hperson
    subst hperson
    rcases PutState_extends c s k (jsonMarshal (f person)).1 with h | h
    · left
      show latest (PutState c s k (jsonMarshal (f person)).1).1 k = _
      rw [h]; exact hheld
    · right
      show latest (PutState c s k (jsonMarshal (f person)).1).1 k = _
      rw [h]; exact latest_after_put c s k _

/-- An update of another key leaves the latest value of `k` as it is. -/
theorem update_other_key (c : Ctx) (s : Ledger) (id k : String) (f : Person → Person)
    (hne : id ≠ k) :
    latest (match QueryPerson c s id with
            | Except.error err => (s, some err)
            | Except.ok person => PutState c s id (jsonMarshal (f person)).1).1 k =
      latest s k := by
  obtain ⟨t, ht, hkeys⟩ := update_extends c s id f
  rw [ht]
  exact latest_append_other s t k (fun e he => by rw [hkeys e he]; exact hne)

/-! ## Decoding errors -/

theorem storeMember_error (key : List Char) (v : JShape) (p : Person) :
    (storeMember key v p).2 ≠ some JsonError.malformed := by
  unfold storeMember
  simp only
  split_ifs
  · cases v <;> simp [storeString]
  · cases v <;> simp [storeString]
  · cases v <;> simp [storeString]
  · cases v <;> simp [storeString]
  · cases v with
    | number lit => cases h : parseUint lit <;> simp [storeUint, h]
    | _ => simp [storeUint]
  · cases v <;> simp [storeBool]
  · simp

/-- Storing the members of an object never reports a syntax error. -/
theorem storeMembers_error (ms : List (List Char × JShape)) :
    ∀ (p : Person) (err : Option JsonError), err ≠ some JsonError.malformed →
      (storeMembers ms p err).2 ≠ some JsonError.malformed := by
  induction ms with
  | nil => intro p err h; exact h
  | cons m ms ih =>
    intro p err h
    obtain ⟨key, v⟩ := m
    unfold storeMembers
    apply ih
    cases err with
    | some e => exact h
    | none => exact storeMember_error key v p

/-- A member that fails with a type error leaves the `Person` as it is. -/
theorem storeMember_failed (key : List Char) (v : JShape) (p : Person)
    (h : (storeMember key v p).2 ≠ none) : (storeMember key v p).1 = p := by
  unfold storeMember at h ⊢
  simp only at h ⊢
  split_ifs at h ⊢
  · cases v <;> simp [storeString] at h ⊢
  · cases v <;> simp [storeString] at h ⊢
  · cases v <;> simp [storeString] at h ⊢
  · cases v <;> simp [storeString] at h ⊢
  · cases v with
    | number lit =>
      cases hl : parseUint lit with
      | none => simp [storeUint, hl]
      | some n => simp [storeUint, hl] at h
    | _ => simp [storeUint] at h ⊢
  · cases v <;> simp [storeBool] at h ⊢
  · rfl

/-- Whether a member fails depends on its key and value, not on the target. -/
theorem storeMember_error_indep (key : List Char) (v : JShape) (p q : Person) :
    (storeMember key v p).2 = (storeMember key v q).2 := by
  unfold storeMember
  simp only
  split_ifs
  · cases v <;> rfl
  · cases v <;> rfl
  · cases v <;> rfl
  · cases v <;> rfl
  · cases v with
    | number lit => cases hl : parseUint lit <;> simp [storeUint, hl]
    | _ => rfl
  · cases v <;> rfl
  · rfl

/-- The `Person` that results does not depend on the error recorded so far. -/
theorem storeMembers_fst_indep (ms : List (List Char × JShape)) :
    ∀ (p : Person) (e1 e2 : Option JsonError),
      (storeMembers ms p e1).1 = (storeMembers ms p e2).1 := by
  induction ms with
  | nil => intro p e1 e2; rfl
  | cons m ms ih =>
    intro p e1 e2
    obtain ⟨key, v⟩ := m
    simp only [storeMembers]
    exact ih _ _ _

/-- An error recorded so far stays recorded. -/
theorem storeMembers_keeps_error (ms : List (List Char × JShape)) :
    ∀ (p : Person) (e : JsonError), (storeMembers ms p (some e)).2 = some e := by
  induction ms with
  | nil => intro p e; rfl
  | cons m ms ih =>
    intro p e
    obtain ⟨key, v⟩ := m
    simp only [storeMembers]
    exact ih _ _

/-- A member whose value does not fit its field is skipped: the `Person` is the
one the other members alone give, and the decoding reports an error. -/
theorem storeMembers_skip (ms1 ms2 : List (List Char × JShape)) (key : List Char) (v : JShape)
    (hbad : (storeMember key v Person.zero).2 ≠ none) :
    ∀ (p : Person) (err : Option JsonError),
      (storeMembers (ms1 ++ (key, v) :: ms2) p err).1 = (storeMembers (ms1 ++ ms2) p err).1 ∧
      (storeMembers (ms1 ++ (key, v) :: ms2) p err).2 ≠ none := by
  induction ms1 with
  | nil =>
    intro p err
    have hbad1 : (storeMember key v p).2 ≠ none := by
      rw [storeMember_error_indep key v p Person.zero]; exact hbad
    simp only [List.nil_append, storeMembers]
    rw [storeMember_failed key v p hbad1]
    refine ⟨storeMembers_fst_indep ms2 p _ _, ?_⟩
    cases err with
    | some e => simp [storeMembers_keeps_error]
    | none =>
      cases hs : (storeMember key v p).2 with
      | none => exact absurd hs hbad1
      | some e => simp [storeMembers_keeps_error]
  | cons m ms1 ih =>
    intro p err
    obtain ⟨k1, v1⟩ := m
    simp only [List.cons_append, storeMembers]
    exact ih _ _

theorem encodePersonMarriedText_shape (p : Person) (t : String) :
    encodePersonMarriedText p t =
      '{' :: memberText "firstname".data (encodeString p.FirstName)
        (',' :: memberText "lastname".data (encodeString p.LastName)
        (',' :: memberText "city".data (encodeString p.City)
        (',' :: memberText "address".data (encodeString p.Address)
        (',' :: memberText "phone".data (encodeUint p.Phone)
        (',' :: memberText "married".data (encodeString t) ['}']))))) := by
  simp +decide [encodePersonMarriedText, memberText, encodeString, escapeString, escapeChar]

theorem parseMembers_encodePersonMarriedText (f d : Nat) (p : Person) (t : String)
    (hp : p.Phone < 2 ^ 64) :
    parseMembers (f + 7) d (memberText "firstname".data (encodeString p.FirstName)
        (',' :: memberText "lastname".data (encodeString p.LastName)
        (',' :: memberText "city".data (encodeString p.City)
        (',' :: memberText "address".data (encodeString p.Address)
        (',' :: memberText "phone".data (encodeUint p.Phone)
        (',' :: memberText "married".data (encodeString t) ['}'])))))) =
      some ([("firstname".data, JShape.string p.FirstName.data),
             ("lastname".data, JShape.string p.LastName.data),
             ("city".data, JShape.string p.City.data),
             ("address".data, JShape.string p.Address.data),
             ("phone".data, JShape.number (encodeUint p.Phone)),
             ("married".data, JShape.string t.data)], []) := by
  rw [parseMembers_more (f + 5) d _ _ _ _ (skipSpace_encodeString _ _)
        (parseValue_string _ _ _ _) (skipSpace_memberText _ _ _),
      parseMembers_more (f + 4) d _ _ _ _ (skipSpace_encodeString _ _)
        (parseValue_string _ _ _ _) (skipSpace_memberText _ _ _),
      parseMembers_more (f + 3) d _ _ _ _ (skipSpace_encodeString _ _)
        (parseValue_string _ _ _ _) (skipSpace_memberText _ _ _),
      parseMembers_more (f + 2) d _ _ _ _ (skipSpace_encodeString _ _)
        (parseValue_string _ _ _ _) (skipSpace_memberText _ _ _),
      parseMembers_more (f + 1) d _ _ _ _ (skipSpace_encodeUint _ hp _)
        (parseValue_uint _ _ _ hp _) (skipSpace_memberText _ _ _),
      parseMembers_last f d _ _ _ _ (skipSpace_encodeString _ _) (parseValue_string _ _ _ _)]
  rfl

/-- Decoding the encoding of a `Person` whose marriage flag is written as a
string: a type error, and every field but the flag decoded. -/
theorem jsonUnmarshal_marriedText (p : Person) (t : String) (hp : p.Phone < 2 ^ 64) :
    jsonUnmarshal (String.mk (encodePersonMarriedText p t)) Person.zero =
      ({ p with Married := false }, some JsonError.typeMismatch) := by
  have hparse : parseJSON (encodePersonMarriedText p t) = some (JTop.members
      [("firstname".data, JShape.string p.FirstName.data),
       ("lastname".data, JShape.string p.LastName.data),
       ("city".data, JShape.string p.City.data),
       ("address".data, JShape.string p.Address.data),
       ("phone".data, JShape.number (encodeUint p.Phone)),
       ("married".data, JShape.string t.data)]) := by
    rw [encodePersonMarriedText_shape]
    exact parseJSON_of_members _ _ (by simp only [List.length_append, List.length_cons]; omega)
      (fun f => parseMembers_encodePersonMarriedText f 1 p t hp)
  have hu := parseUint_encodeUint p.Phone hp
  simp only [jsonUnmarshal, hparse]
  simp +decide [storeMembers, storeMember, storeString, storeUint, storeBool, hu, Person.zero]

/-! ## The claims -/

/-- Create-once on the path where the substrate read works. When the key
already has a committed value and the read works, `CreatePerson` with any field
values fails with
"person with id k already exists" and leaves the ledger as it is; and once a
`CreatePerson` of the key has succeeded, the same holds after any later
invocations, so every later `CreatePerson` of that key fails. -/
theorem CreatePerson_once (c : Ctx) (s : Ledger) (id firstName lastName city address : String)
    (phone : Nat) (married : Bool) (hget : c.getErr id = none) :
    (latest s id ≠ none →
      CreatePerson c s id firstName lastName city address phone married =
        (s, some ("person with id " ++ id ++ " already exists"))) ∧
    (∀ (c0 : Ctx) (s0 : Ledger) (firstName0 lastName0 city0 address0 : String) (phone0 : Nat)
        (married0 : Bool) (ops : List (Ctx × Op)),
      (CreatePerson c0 s0 id firstName0 lastName0 city0 address0 phone0 married0).2 = none →
      s = runAll (CreatePerson c0 s0 id firstName0 lastName0 city0 address0 phone0 married0).1
            ops →
      CreatePerson c s id firstName lastName city address phone married =
        (s, some ("person with id " ++ id ++ " already exists"))) := by
  refine ⟨CreatePerson_present c s id _ _ _ _ _ _ hget, ?_⟩
  intro c0 s0 firstName0 lastName0 city0 address0 phone0 married0 ops hok hs
  apply CreatePerson_present c s id _ _ _ _ _ _ hget
  rw [hs]
  apply runAll_present
  cases hg : (GetState c0 s0 id).1 with
  | some v =>
    unfold CreatePerson at hok
    rw [hg] at hok
    simp at hok
  | none =>
    rw [CreatePerson_nil c0 s0 id _ _ _ _ _ _ hg] at hok ⊢
    rw [(PutState_succeeded c0 s0 id _ hok).2, latest_append_single]
    simp

/-- Create-once with a working read, at the scenario of the specification:
after `CreatePerson("1001", ...)`, a second `CreatePerson("1001", ...)` fails. -/
theorem CreatePerson_once_witness :
    (Ctx.ok "tx2" 2).getErr "1001" = none ∧
    CreatePerson (Ctx.ok "tx2" 2)
        (CreatePerson (Ctx.ok "tx1" 1) [] "1001" "A" "B" "CityX" "AddrX" 89000000000 false).1
        "1001" "C" "D" "CityY" "AddrY" 89000000001 true =
      ((CreatePerson (Ctx.ok "tx1" 1) [] "1001" "A" "B" "CityX" "AddrX" 89000000000 false).1,
        some ("person with id " ++ "1001" ++ " already exists")) :=
  ⟨rfl, (CreatePerson_once (Ctx.ok "tx2" 2)
      (CreatePerson (Ctx.ok "tx1" 1) [] "1001" "A" "B" "CityX" "AddrX" 89000000000 false).1
      "1001" "C" "D" "CityY" "AddrY" 89000000001 true rfl).1 (by decide)⟩

set_option maxRecDepth 8000 in
/-- C1 (create-once) is broken by the code at this input. The key "1001" was
created by a successful `CreatePerson`; a second `CreatePerson` of "1001" runs
in a transaction whose `GetState` fails ("connection lost") while its
`PutState` works. The source drops the error of `GetState`
(`personAsBytes, _ := ...`), sees `nil` bytes, and writes: the second call
returns no error, the ledger holds a second version of the key, and
`QueryPerson` now returns the second person. -/
theorem CreatePerson_overwrites_after_failed_read :
    latest (CreatePerson (Ctx.ok "tx0" 0) [] "1001" "A" "B" "CityX" "AddrX" 89000000000
        false).1 "1001" ≠ none ∧
    Ctx.readsFail.getErr "1001" = some "connection lost" ∧
    (CreatePerson Ctx.readsFail
        (CreatePerson (Ctx.ok "tx0" 0) [] "1001" "A" "B" "CityX" "AddrX" 89000000000 false).1
        "1001" "C" "D" "CityY" "AddrY" 89000000001 true).2 = none ∧
    (CreatePerson Ctx.readsFail
        (CreatePerson (Ctx.ok "tx0" 0) [] "1001" "A" "B" "CityX" "AddrX" 89000000000 false).1
        "1001" "C" "D" "CityY" "AddrY" 89000000001 true).1 =
      [("1001", ⟨"tx0", 0, (jsonMarshal
          { FirstName := "A", LastName := "B", City := "CityX", Address := "AddrX",
            Phone := 89000000000, Married := false }).1⟩),
       ("1001", ⟨"tx1", 1, (jsonMarshal
          { FirstName := "C", LastName := "D", City := "CityY", Address := "AddrY",
            Phone := 89000000001, Married := true }).1⟩)] ∧
    QueryPerson (Ctx.ok "tx2" 2)
        (CreatePerson Ctx.readsFail
          (CreatePerson (Ctx.ok "tx0" 0) [] "1001" "A" "B" "CityX" "AddrX" 89000000000 false).1
          "1001" "C" "D" "CityY" "AddrY" 89000000001 true).1 "1001" =
      Except.ok { FirstName := "C", LastName := "D", City := "CityY", Address := "AddrY",
                  Phone := 89000000001, Married := true } := by
  refine ⟨by decide, rfl, rfl, rfl, rfl⟩

/-- C2 (read-your-write). For a key absent from the ledger and any field
values (the phone a 64-bit unsigned integer), when `CreatePerson` succeeds,
`QueryPerson` of that key on the resulting ledger succeeds and returns a
`Person` with exactly those six field values. -/
theorem QueryPerson_after_CreatePerson (c c1 : Ctx) (s : Ledger)
    (id firstName lastName city address : String) (phone : Nat) (married : Bool)
    (hphone : phone < 2 ^ 64) (habsent : latest s id = none)
    (hok : (CreatePerson c s id firstName lastName city address phone married).2 = none)
    (hget : c1.getErr id = none) :
    QueryPerson c1 (CreatePerson c s id firstName lastName city address phone married).1 id =
      Except.ok { FirstName := firstName, LastName := lastName, City := city,
                  Address := address, Phone := phone, Married := married } := by
  have hnil := GetState_fst_of_none c s id habsent
  rw [CreatePerson_nil c s id _ _ _ _ _ _ hnil] at hok ⊢
  rw [(PutState_succeeded c s id _ hok).2]
  exact QueryPerson_encoded c1 _ id _ hphone hget (latest_after_put c s id _)

/-- The read-your-write property at the scenario of the specification. -/
theorem QueryPerson_after_CreatePerson_witness :
    (89000000000 < 2 ^ 64 ∧ latest [] "1001" = none ∧
      (CreatePerson (Ctx.ok "tx1" 1) [] "1001" "A" "B" "CityX" "AddrX" 89000000000 false).2 = none ∧
      (Ctx.ok "tx2" 2).getErr "1001" = none) ∧
    QueryPerson (Ctx.ok "tx2" 2)
        (CreatePerson (Ctx.ok "tx1" 1) [] "1001" "A" "B" "CityX" "AddrX" 89000000000 false).1
        "1001" =
      Except.ok { FirstName := "A", LastName := "B", City := "CityX", Address := "AddrX",
                  Phone := 89000000000, Married := false } :=
  ⟨⟨by decide, rfl, rfl, rfl⟩,
    QueryPerson_after_CreatePerson (Ctx.ok "tx1" 1) (Ctx.ok "tx2" 2) [] "1001" "A" "B" "CityX"
      "AddrX" 89000000000 false (by decide) rfl rfl rfl⟩

/-- C3 (field-update isolation). On a ledger in which the key holds the
encoding of a `Person` `p`, a successful `UpdatePhone` makes `QueryPerson`
return `p` with only the phone replaced, a successful `UpdateLocation` `p` with
only city and address replaced, and a successful `UpdateMarriage` `p` with
only the marriage flag replaced. -/
theorem update_isolation (c c1 : Ctx) (s : Ledger) (id : String) (p : Person)
    (hp : p.Phone < 2 ^ 64) (hheld : latest s id = some (jsonMarshal p).1)
    (hget : c1.getErr id = none) :
    (∀ newPhone, newPhone < 2 ^ 64 → (UpdatePhone c s id newPhone).2 = none →
      QueryPerson c1 (UpdatePhone c s id newPhone).1 id =
        Except.ok { p with Phone := newPhone }) ∧
    (∀ newCity newAddress, (UpdateLocation c s id newCity newAddress).2 = none →
      QueryPerson c1 (UpdateLocation c s id newCity newAddress).1 id =
        Except.ok { p with City := newCity, Address := newAddress }) ∧
    (∀ newMarriage, (UpdateMarriage c s id newMarriage).2 = none →
      QueryPerson c1 (UpdateMarriage c s id newMarriage).1 id =
        Except.ok { p with Married := newMarriage }) := by
  refine ⟨?_, ?_, ?_⟩
  · intro newPhone hnew hok
    have h := update_succeeded c s id (fun person => { person with Phone := newPhone }) p hp
      hheld hok
    have h1 : (UpdatePhone c s id newPhone).1 = _ := h
    rw [h1]
    exact QueryPerson_encoded c1 _ id _ hnew hget (latest_after_put c s id _)
  · intro newCity newAddress hok
    have h := update_succeeded c s id
      (fun person => { person with City := newCity, Address := newAddress }) p hp hheld hok
    have h1 : (UpdateLocation c s id newCity newAddress).1 = _ := h
    rw [h1]
    exact QueryPerson_encoded c1 _ id _ hp hget (latest_after_put c s id _)
  · intro newMarriage hok
    have h := update_succeeded c s id (fun person => { person with Married := newMarriage }) p
      hp hheld hok
    have h1 : (UpdateMarriage c s id newMarriage).1 = _ := h
    rw [h1]
    exact QueryPerson_encoded c1 _ id _ hp hget (latest_after_put c s id _)

/-- Field-update isolation at the scenario of the specification: after
`CreatePerson("1001", ...)`, `UpdateMarriage("1001", true)` changes only the
marriage flag. -/
theorem update_isolation_witness :
    (89000000000 < 2 ^ 64 ∧
      latest (CreatePerson (Ctx.ok "tx1" 1) [] "1001" "A" "B" "CityX" "AddrX" 89000000000
          false).1 "1001" =
        some (jsonMarshal { FirstName := "A", LastName := "B", City := "CityX",
                            Address := "AddrX", Phone := 89000000000, Married := false }).1 ∧
      (Ctx.ok "tx3" 3).getErr "1001" = none ∧
      (UpdateMarriage (Ctx.ok "tx2" 2)
        (CreatePerson (Ctx.ok "tx1" 1) [] "1001" "A" "B" "CityX" "AddrX" 89000000000 false).1
        "1001" true).2 = none) ∧
    QueryPerson (Ctx.ok "tx3" 3)
        (UpdateMarriage (Ctx.ok "tx2" 2)
          (CreatePerson (Ctx.ok "tx1" 1) [] "1001" "A" "B" "CityX" "AddrX" 89000000000 false).1
          "1001" true).1 "1001" =
      Except.ok { FirstName := "A", LastName := "B", City := "CityX", Address := "AddrX",
                  Phone := 89000000000, Married := true } :=
  ⟨⟨by decide, rfl, rfl, rfl⟩,
    (update_isolation (Ctx.ok "tx2" 2) (Ctx.ok "tx3" 3)
      (CreatePerson (Ctx.ok "tx1" 1) [] "1001" "A" "B" "CityX" "AddrX" 89000000000 false).1
      "1001" { FirstName := "A", LastName := "B", City := "CityX", Address := "AddrX",
               Phone := 89000000000, Married := false }
      (by decide) rfl rfl).2.2 true rfl⟩

/-- C5 (absent-key errors). For a key that was never written, when the
substrate read works, `QueryPerson`, `UpdateLocation`, `UpdatePhone`,
`UpdateMarriage` and `GetUpdatesHistory` each fail with
"person with id k does not exist" and the three updates leave the ledger as
it is; `CreatePerson` of that key succeeds whenever its `PutState` does, and
commits the encoded record. -/
theorem absent_key_errors (c : Ctx) (s : Ledger) (id : String) (habsent : history s id = [])
    (hget : c.getErr id = none) :
    QueryPerson c s id = Except.error ("person with id " ++ id ++ " does not exist") ∧
    (∀ newCity newAddress, UpdateLocation c s id newCity newAddress =
      (s, some ("person with id " ++ id ++ " does not exist"))) ∧
    (∀ newPhone, UpdatePhone c s id newPhone =
      (s, some ("person with id " ++ id ++ " does not exist"))) ∧
    (∀ newMarriage, UpdateMarriage c s id newMarriage =
      (s, some ("person with id " ++ id ++ " does not exist"))) ∧
    GetUpdatesHistory c s id = Except.error ("person with id " ++ id ++ " does not exist") ∧
    (∀ (firstName lastName city address : String) (phone : Nat) (married : Bool),
      c.putErr id (jsonMarshal { FirstName := firstName, LastName := lastName, City := city,
                                 Address := address, Phone := phone, Married := married }).1
        = none →
      CreatePerson c s id firstName lastName city address phone married =
        (s ++ [(id, ⟨c.txId, c.timestamp,
            (jsonMarshal { FirstName := firstName, LastName := lastName, City := city,
                           Address := address, Phone := phone, Married := married }).1⟩)],
          none)) := by
  have hl : latest s id = none := (latest_eq_none_iff s id).mpr habsent
  have hq := QueryPerson_absent c s id hget hl
  refine ⟨hq, ?_, ?_, ?_, ?_, ?_⟩
  · intro newCity newAddress
    simp only [UpdateLocation, hq]
  · intro newPhone
    simp only [UpdatePhone, hq]
  · intro newMarriage
    simp only [UpdateMarriage, hq]
  · simp only [GetUpdatesHistory, hq]
  · intro firstName lastName city address phone married hput
    rw [CreatePerson_nil c s id _ _ _ _ _ _ (GetState_fst_of_none c s id hl)]
    exact PutState_ok c s id _ hput

/-- Absent-key errors on the empty ledger for the key of the specification's
scenario. -/
theorem absent_key_errors_witness :
    (history [] "1001" = [] ∧ (Ctx.ok "tx1" 1).getErr "1001" = none) ∧
    QueryPerson (Ctx.ok "tx1" 1) [] "1001" =
      Except.error ("person with id " ++ "1001" ++ " does not exist") :=
  ⟨⟨rfl, rfl⟩, (absent_key_errors (Ctx.ok "tx1" 1) [] "1001" rfl rfl).1⟩

/-- C4 (history completeness). Starting from a ledger where the key was never
written, after a successful `CreatePerson` of the key followed by any sequence
of successful `UpdateLocation` / `UpdatePhone` / `UpdateMarriage` calls on it
(updates that change nothing included), `GetUpdatesHistory` succeeds and
returns one entry per write, oldest first, whose snapshot is the record right
after that write; the last snapshot is what `QueryPerson` returns. -/
theorem history_complete (c0 c : Ctx) (s0 : Ledger) (id : String) (f : Person)
    (ws : List (Ctx × Write))
    (habsent : history s0 id = []) (hf : f.Phone < 2 ^ 64)
    (hws : ∀ w ∈ ws, w.2.wellTyped = true)
    (hcreate : (CreatePerson c0 s0 id f.FirstName f.LastName f.City f.Address f.Phone
      f.Married).2 = none)
    (hupdates : writesOk id (CreatePerson c0 s0 id f.FirstName f.LastName f.City f.Address
      f.Phone f.Married).1 ws = true)
    (hget : c.getErr id = none) (hhistory : c.historyErr id = none)
    (hnext : ∀ i, c.nextErr i = none) :
    GetUpdatesHistory c
        (runWrites id (CreatePerson c0 s0 id f.FirstName f.LastName f.City f.Address f.Phone
          f.Married).1 ws) id =
      Except.ok ({ TxId := c0.txId, Timestamp := c0.timestamp, PersonRecord := f } ::
        replay f ws) ∧
    (({ TxId := c0.txId, Timestamp := c0.timestamp, PersonRecord := f } : Update) ::
        replay f ws).length = ws.length + 1 ∧
    QueryPerson c
        (runWrites id (CreatePerson c0 s0 id f.FirstName f.LastName f.City f.Address f.Phone
          f.Married).1 ws) id = Except.ok (finalPerson f ws) ∧
    ((({ TxId := c0.txId, Timestamp := c0.timestamp, PersonRecord := f } : Update) ::
        replay f ws).getLast?).map Update.PersonRecord = some (finalPerson f ws) := by
  have hl : latest s0 id = none := (latest_eq_none_iff s0 id).mpr habsent
  have hnil := GetState_fst_of_none c0 s0 id hl
  rw [CreatePerson_nil c0 s0 id _ _ _ _ _ _ hnil] at hcreate hupdates ⊢
  have hs1 := (PutState_succeeded c0 s0 id _ hcreate).2
  rw [hs1] at hupdates ⊢
  have hheld : latest (s0 ++ [(id, ⟨c0.txId, c0.timestamp, (jsonMarshal f).1⟩)]) id =
      some (jsonMarshal f).1 := latest_after_put c0 s0 id _
  obtain ⟨h1, h2, h3, h4⟩ := runWrites_history id ws _ f hf hheld hws hupdates
  have hq := QueryPerson_encoded c _ id _ h3 hget h2
  refine ⟨?_, by simp [length_replay], hq, getLast_replay f ws _ rfl⟩
  unfold GetUpdatesHistory GetHistoryForKey
  rw [hq]
  simp only [hhistory]
  rw [GetUpdatesHistory_loop_ok c hnext, h1, history_append, habsent, history_single]
  simp only [if_true, List.nil_append, List.singleton_append, List.map_append, List.map_cons,
    List.map_nil]
  rw [map_update_version _ h4]
  have := Version_update_version ⟨c0.txId, c0.timestamp, f⟩ hf
  simp only [Update.version] at this
  rw [this]

/-- History completeness at the scenario of the specification: create "1001"
unmarried, then `UpdateMarriage("1001", true)`; the history has the two
snapshots, `married:false` then `married:true`. -/
theorem history_complete_witness :
    (history [] "1001" = [] ∧ 89000000000 < 2 ^ 64 ∧
      (CreatePerson (Ctx.ok "tx1" 1) [] "1001" "A" "B" "CityX" "AddrX" 89000000000 false).2 =
        none ∧
      writesOk "1001"
        (CreatePerson (Ctx.ok "tx1" 1) [] "1001" "A" "B" "CityX" "AddrX" 89000000000 false).1
        [(Ctx.ok "tx2" 2, Write.marriage true)] = true) ∧
    GetUpdatesHistory (Ctx.ok "tx3" 3)
        (runWrites "1001"
          (CreatePerson (Ctx.ok "tx1" 1) [] "1001" "A" "B" "CityX" "AddrX" 89000000000 false).1
          [(Ctx.ok "tx2" 2, Write.marriage true)]) "1001" =
      Except.ok
        [{ TxId := "tx1", Timestamp := 1,
           PersonRecord := { FirstName := "A", LastName := "B", City := "CityX",
                             Address := "AddrX", Phone := 89000000000, Married := false } },
         { TxId := "tx2", Timestamp := 2,
           PersonRecord := { FirstName := "A", LastName := "B", City := "CityX",
                             Address := "AddrX", Phone := 89000000000, Married := true } }] :=
  ⟨⟨rfl, by decide, rfl, rfl⟩,
    (history_complete (Ctx.ok "tx1" 1) (Ctx.ok "tx3" 3) [] "1001"
      { FirstName := "A", LastName := "B", City := "CityX", Address := "AddrX",
        Phone := 89000000000, Married := false }
      [(Ctx.ok "tx2" 2, Write.marriage true)] rfl (by decide) (by decide) rfl rfl rfl rfl
      (fun _ => rfl)).1⟩

/-- C6 (scan completeness and ordering). On every ledger reached from the
empty one by successful invocations, when the scan and its iterator work,
`QueryAllPersons` succeeds; its entries are in strictly increasing key order
(so no key twice), the keys are exactly the keys created so far, and each entry
carries what `QueryPerson` returns for its key. On the empty ledger it returns
the empty list. -/
theorem QueryAllPersons_complete (ops : List (Ctx × Op)) (c : Ctx)
    (hok : allOk [] ops = true) (hrange : c.rangeErr = none)
    (hnext : ∀ i, c.nextErr i = none) (hget : ∀ k, c.getErr k = none) :
    ∃ rs, QueryAllPersons c (runAll [] ops) = Except.ok rs ∧
      rs.Pairwise (fun a b => keyLt a.Key b.Key = true) ∧
      (rs.map QueryResult.Key).Nodup ∧
      (∀ k, k ∈ rs.map QueryResult.Key ↔ k ∈ createdKeys ops) ∧
      (∀ r ∈ rs, QueryPerson c (runAll [] ops) r.Key = Except.ok r.Record) ∧
      QueryAllPersons c [] = Except.ok [] := by
  have hpresent : ∀ k ∈ keys (runAll [] ops), latest (runAll [] ops) k ≠ none :=
    fun k hk => (mem_map_fst_iff_latest _ k).mp ((mem_keys _ k).mp hk)
  obtain ⟨hfst, hval⟩ := scan_entries (runAll [] ops) (keys (runAll [] ops)) hpresent
  have hkeys : (((keys (runAll [] ops)).filterMap
      (fun k => (latest (runAll [] ops) k).map (fun v => (k, v)))).map
        (fun kv => ({ Key := kv.1, Record := (jsonUnmarshal kv.2 Person.zero).1 } :
          QueryResult))).map QueryResult.Key = keys (runAll [] ops) := by
    rw [List.map_map]
    exact hfst
  have hsorted := sorted_keys (runAll [] ops)
  refine ⟨_, QueryAllPersons_ok c (runAll [] ops) hrange hnext, ?_, ?_, ?_, ?_, ?_⟩
  · rw [← hkeys, List.pairwise_map] at hsorted
    exact hsorted
  · rw [hkeys]
    refine List.Pairwise.imp ?_ hsorted
    intro a b hab hEq
    rw [hEq, keyLt_irrefl] at hab
    exact Bool.noConfusion hab
  · intro k
    rw [hkeys, mem_keys, runAll_ok_keys ops [] hok k]
    simp
  · intro r hr
    obtain ⟨kv, hkv, rfl⟩ := List.mem_map.mp hr
    exact QueryPerson_present c _ kv.1 kv.2 (hget kv.1) (hval kv hkv)
  · rw [QueryAllPersons_ok c [] hrange hnext]
    rfl

/-- Scan completeness after `CreatePerson("1001", ...)` and `InitLedger`: the
hypotheses hold there, so the scan lists the three keys in key order. -/
theorem QueryAllPersons_complete_witness :
    (allOk [] [(Ctx.ok "tx1" 1,
                  Op.createPerson "1001" "A" "B" "CityX" "AddrX" 89000000000 false),
               (Ctx.ok "tx2" 2, Op.initLedger)] = true ∧
      (Ctx.ok "tx3" 3).rangeErr = none ∧
      (∀ i, (Ctx.ok "tx3" 3).nextErr i = none) ∧
      (∀ k, (Ctx.ok "tx3" 3).getErr k = none)) ∧
    ∃ rs, QueryAllPersons (Ctx.ok "tx3" 3)
        (runAll [] [(Ctx.ok "tx1" 1,
                      Op.createPerson "1001" "A" "B" "CityX" "AddrX" 89000000000 false),
                    (Ctx.ok "tx2" 2, Op.initLedger)]) = Except.ok rs ∧
      rs.Pairwise (fun a b => keyLt a.Key b.Key = true) ∧
      (rs.map QueryResult.Key).Nodup ∧
      (∀ k, k ∈ rs.map QueryResult.Key ↔
        k ∈ createdKeys [(Ctx.ok "tx1" 1,
                            Op.createPerson "1001" "A" "B" "CityX" "AddrX" 89000000000 false),
                         (Ctx.ok "tx2" 2, Op.initLedger)]) ∧
      (∀ r ∈ rs, QueryPerson (Ctx.ok "tx3" 3)
        (runAll [] [(Ctx.ok "tx1" 1,
                      Op.createPerson "1001" "A" "B" "CityX" "AddrX" 89000000000 false),
                    (Ctx.ok "tx2" 2, Op.initLedger)]) r.Key = Except.ok r.Record) ∧
      QueryAllPersons (Ctx.ok "tx3" 3) [] = Except.ok [] :=
  ⟨⟨rfl, rfl, fun _ => rfl, fun _ => rfl⟩,
    QueryAllPersons_complete
      [(Ctx.ok "tx1" 1, Op.createPerson "1001" "A" "B" "CityX" "AddrX" 89000000000 false),
       (Ctx.ok "tx2" 2, Op.initLedger)]
      (Ctx.ok "tx3" 3) rfl rfl (fun _ => rfl) (fun _ => rfl)⟩

/-- C7, as stated, fails. On the empty ledger, when the substrate accepts the
first seed record of `InitLedger` and rejects the second, `InitLedger` returns
an error and the ledger is not the one before the call: the first seed record
is committed. -/
theorem InitLedger_not_atomic :
    (Op.initLedger.run Ctx.secondSeedFails []).2 =
      some "failed to put to world state. disk full" ∧
    (Op.initLedger.run Ctx.secondSeedFails []).1 =
      [("2340001122", ⟨"tx1", 1, (jsonMarshal
          { FirstName := "Lorem", LastName := "Ipsum", City := "Dolgoprudny",
            Address := "Pervomayskaya 15", Phone := 89001112233, Married := false }).1⟩)] ∧
    (Op.initLedger.run Ctx.secondSeedFails []).1 ≠ [] := by
  refine ⟨rfl, rfl, ?_⟩
  decide

/-- C7, amended. Every operation but `InitLedger` that returns an error leaves
the ledger as it was. `InitLedger` that returns an error either failed at its
first `PutState` and left the ledger as it was, or failed at its second and
left exactly the first seed record committed. -/
theorem error_leaves_ledger (c : Ctx) (s : Ledger) (op : Op) (herr : (op.run c s).2 ≠ none) :
    (op ≠ Op.initLedger → (op.run c s).1 = s) ∧
    (op = Op.initLedger →
      (InitLedger c s).1 = s ∨
      (c.putErr "2340001122" (jsonMarshal
          { FirstName := "Lorem", LastName := "Ipsum", City := "Dolgoprudny",
            Address := "Pervomayskaya 15", Phone := 89001112233, Married := false }).1 = none ∧
        c.putErr "1235553333" (jsonMarshal
          { FirstName := "Dolor", LastName := "Sit", City := "Moscow",
            Address := "Pushkina 11", Phone := 89001230000, Married := false }).1 ≠ none ∧
        (InitLedger c s).1 =
          s ++ [("2340001122", ⟨c.txId, c.timestamp, (jsonMarshal
            { FirstName := "Lorem", LastName := "Ipsum", City := "Dolgoprudny",
              Address := "Pervomayskaya 15", Phone := 89001112233, Married := false }).1⟩)])) := by
  cases op with
  | initLedger =>
    refine ⟨fun h => absurd rfl h, fun _ => ?_⟩
    simp only [InitLedger, InitLedger.ids, InitLedger.people, List.zip_cons_cons,
      List.zip_nil_right, InitLedger.loop, PutState]
    cases h1 : c.putErr "2340001122" (jsonMarshal
        { FirstName := "Lorem", LastName := "Ipsum", City := "Dolgoprudny",
          Address := "Pervomayskaya 15", Phone := 89001112233, Married := false }).1 with
    | some e => exact Or.inl rfl
    | none =>
      cases h2 : c.putErr "1235553333" (jsonMarshal
          { FirstName := "Dolor", LastName := "Sit", City := "Moscow",
            Address := "Pushkina 11", Phone := 89001230000, Married := false }).1 with
      | some e => exact Or.inr ⟨rfl, by simp, rfl⟩
      | none =>
        exfalso
        apply herr
        simp [Op.run, InitLedger, InitLedger.ids, InitLedger.people, InitLedger.loop, PutState,
          h1, h2]
  | createPerson id firstName lastName city address phone married =>
    refine ⟨fun _ => ?_, fun h => Op.noConfusion h⟩
    cases hg : (GetState c s id).1 with
    | some v => simp [Op.run, CreatePerson, hg]
    | none =>
      simp only [Op.run] at herr ⊢
      rw [CreatePerson_nil c s id _ _ _ _ _ _ hg] at herr ⊢
      exact PutState_failed c s id _ herr
  | queryPerson id => exact ⟨fun _ => rfl, fun h => Op.noConfusion h⟩
  | queryAllPersons => exact ⟨fun _ => rfl, fun h => Op.noConfusion h⟩
  | updateLocation id newCity newAddress =>
    refine ⟨fun _ => ?_, fun h => Op.noConfusion h⟩
    simp only [Op.run, UpdateLocation] at herr ⊢
    cases hq : QueryPerson c s id with
    | error err => rfl
    | ok person =>
      rw [hq] at herr
      exact PutState_failed c s id _ herr
  | updatePhone id newPhone =>
    refine ⟨fun _ => ?_, fun h => Op.noConfusion h⟩
    simp only [Op.run, UpdatePhone] at herr ⊢
    cases hq : QueryPerson c s id with
    | error err => rfl
    | ok person =>
      rw [hq] at herr
      exact PutState_failed c s id _ herr
  | updateMarriage id newMarriage =>
    refine ⟨fun _ => ?_, fun h => Op.noConfusion h⟩
    simp only [Op.run, UpdateMarriage] at herr ⊢
    cases hq : QueryPerson c s id with
    | error err => rfl
    | ok person =>
      rw [hq] at herr
      exact PutState_failed c s id _ herr
  | getUpdatesHistory id => exact ⟨fun _ => rfl, fun h => Op.noConfusion h⟩

/-- The amended atomicity at a failing `UpdatePhone` of an absent key: the
call returns an error and the ledger is unchanged. -/
theorem error_leaves_ledger_witness :
    ((Op.updatePhone "1001" 89000000001).run (Ctx.ok "tx1" 1) []).2 ≠ none ∧
    ((Op.updatePhone "1001" 89000000001 ≠ Op.initLedger →
      ((Op.updatePhone "1001" 89000000001).run (Ctx.ok "tx1" 1) []).1 = [])) :=
  ⟨by decide,
    (error_leaves_ledger (Ctx.ok "tx1" 1) [] (Op.updatePhone "1001" 89000000001)
      (by decide)).1⟩

/-- C8, as stated, fails. When the substrate read fails with "connection lost"
inside `QueryPerson`, the error the caller receives is not that error but
"failed to read from world state. connection lost". -/
theorem QueryPerson_wraps_read_error :
    Ctx.readsFail.getErr "1001" = some "connection lost" ∧
    QueryPerson Ctx.readsFail [] "1001" =
      Except.error "failed to read from world state. connection lost" ∧
    QueryPerson Ctx.readsFail [] "1001" ≠ Except.error "connection lost" := by
  refine ⟨rfl, rfl, ?_⟩
  intro h
  have h1 : ("failed to read from world state. connection lost" : String) = "connection lost" :=
    Except.error.inj (Eq.trans (Eq.symm (rfl : QueryPerson Ctx.readsFail [] "1001" =
      Except.error "failed to read from world state. connection lost")) h)
  exact absurd h1 (by decide)

/-- C8, amended. Leaving aside a `CreatePerson` whose `GetState` fails, a
substrate call that fails with `e` makes the operation fail and nothing is
written after it:
a failed `GetState` in `QueryPerson`, in the three updates and in
`GetUpdatesHistory` returns `e` behind the text
"failed to read from world state. ";
a failed `PutState` in the three updates, and in a `CreatePerson` whose read
worked and found the key absent, returns `e` itself;
a failed `PutState` in `InitLedger` returns `e` behind the text
"failed to put to world state. ", with the ledger unchanged when it is the
first put and holding the first seed record when it is the second;
a failed range scan, a failed history query and the first failing iterator
step return `e` itself. -/
theorem substrate_errors (c : Ctx) (s : Ledger) (e : Error) :
    (∀ id, c.getErr id = some e →
      QueryPerson c s id = Except.error ("failed to read from world state. " ++ e) ∧
      (∀ newCity newAddress, UpdateLocation c s id newCity newAddress =
        (s, some ("failed to read from world state. " ++ e))) ∧
      (∀ newPhone, UpdatePhone c s id newPhone =
        (s, some ("failed to read from world state. " ++ e))) ∧
      (∀ newMarriage, UpdateMarriage c s id newMarriage =
        (s, some ("failed to read from world state. " ++ e))) ∧
      GetUpdatesHistory c s id = Except.error ("failed to read from world state. " ++ e)) ∧
    (∀ id person, QueryPerson c s id = Except.ok person →
      (∀ newCity newAddress,
        c.putErr id (jsonMarshal { person with City := newCity, Address := newAddress }).1 =
          some e →
        UpdateLocation c s id newCity newAddress = (s, some e)) ∧
      (∀ newPhone, c.putErr id (jsonMarshal { person with Phone := newPhone }).1 = some e →
        UpdatePhone c s id newPhone = (s, some e)) ∧
      (∀ newMarriage,
        c.putErr id (jsonMarshal { person with Married := newMarriage }).1 = some e →
        UpdateMarriage c s id newMarriage = (s, some e)) ∧
      (c.historyErr id = some e → GetUpdatesHistory c s id = Except.error e) ∧
      (∀ i, c.historyErr id = none → i < (history s id).length →
        (∀ j, j < i → c.nextErr j = none) → c.nextErr i = some e →
        GetUpdatesHistory c s id = Except.error e)) ∧
    (∀ id firstName lastName city address phone married, c.getErr id = none →
      latest s id = none →
      c.putErr id (jsonMarshal { FirstName := firstName, LastName := lastName, City := city,
                                 Address := address, Phone := phone, Married := married }).1 =
        some e →
      CreatePerson c s id firstName lastName city address phone married = (s, some e)) ∧
    (c.putErr "2340001122" (jsonMarshal
        { FirstName := "Lorem", LastName := "Ipsum", City := "Dolgoprudny",
          Address := "Pervomayskaya 15", Phone := 89001112233, Married := false }).1 = some e →
      InitLedger c s = (s, some ("failed to put to world state. " ++ e))) ∧
    (c.putErr "2340001122" (jsonMarshal
        { FirstName := "Lorem", LastName := "Ipsum", City := "Dolgoprudny",
          Address := "Pervomayskaya 15", Phone := 89001112233, Married := false }).1 = none →
      c.putErr "1235553333" (jsonMarshal
        { FirstName := "Dolor", LastName := "Sit", City := "Moscow",
          Address := "Pushkina 11", Phone := 89001230000, Married := false }).1 = some e →
      InitLedger c s =
        (s ++ [("2340001122", ⟨c.txId, c.timestamp, (jsonMarshal
            { FirstName := "Lorem", LastName := "Ipsum", City := "Dolgoprudny",
              Address := "Pervomayskaya 15", Phone := 89001112233, Married := false }).1⟩)],
          some ("failed to put to world state. " ++ e))) ∧
    (c.rangeErr = some e → QueryAllPersons c s = Except.error e) ∧
    (∀ i, c.rangeErr = none → i < (keys s).length → (∀ j, j < i → c.nextErr j = none) →
      c.nextErr i = some e → QueryAllPersons c s = Except.error e) := by
  refine ⟨?_, ?_, ?_, ?_, ?_, ?_, ?_⟩
  · intro id hget
    have hq := QueryPerson_getErr c s id e hget
    refine ⟨hq, ?_, ?_, ?_, ?_⟩
    · intro newCity newAddress; simp only [UpdateLocation, hq]
    · intro newPhone; simp only [UpdatePhone, hq]
    · intro newMarriage; simp only [UpdateMarriage, hq]
    · simp only [GetUpdatesHistory, hq]
  · intro id person hq
    refine ⟨?_, ?_, ?_, ?_, ?_⟩
    · intro newCity newAddress hput
      simp only [UpdateLocation, hq]
      exact PutState_err c s id _ e hput
    · intro newPhone hput
      simp only [UpdatePhone, hq]
      exact PutState_err c s id _ e hput
    · intro newMarriage hput
      simp only [UpdateMarriage, hq]
      exact PutState_err c s id _ e hput
    · intro hhist
      simp only [GetUpdatesHistory, hq, GetHistoryForKey, hhist]
    · intro i hhist hi hbefore hat
      simp only [GetUpdatesHistory, hq, GetHistoryForKey, hhist]
      exact GetUpdatesHistory_loop_err c e (history s id) 0 i [] hi
        (fun j hj => by rw [Nat.zero_add]; exact hbefore j hj) (by rw [Nat.zero_add]; exact hat)
  · intro id firstName lastName city address phone married _ hl hput
    rw [CreatePerson_nil c s id _ _ _ _ _ _ (GetState_fst_of_none c s id hl)]
    exact PutState_err c s id _ e hput
  · intro h1
    simp [InitLedger, InitLedger.ids, InitLedger.people, InitLedger.loop, PutState, h1]
  · intro h1 h2
    simp [InitLedger, InitLedger.ids, InitLedger.people, InitLedger.loop, PutState, h1, h2]
  · intro hrange
    simp only [QueryAllPersons, GetStateByRange, hrange]
  · intro i hrange hi hbefore hat
    simp only [QueryAllPersons, GetStateByRange, hrange]
    exact QueryAllPersons_loop_err c e _ 0 i [] (by rw [scan_length]; exact hi)
      (fun j hj => by rw [Nat.zero_add]; exact hbefore j hj) (by rw [Nat.zero_add]; exact hat)

/-- The amended propagation at a failing read: `UpdatePhone` returns the
read error behind the contract's text and writes nothing. -/
theorem substrate_errors_witness :
    Ctx.readsFail.getErr "1001" = some "connection lost" ∧
    UpdatePhone Ctx.readsFail [] "1001" 89000000001 =
      ([], some ("failed to read from world state. " ++ "connection lost")) :=
  ⟨rfl, ((substrate_errors Ctx.readsFail [] "connection lost").1 "1001" rfl).2.2.1 89000000001⟩

set_option maxRecDepth 8000 in
/-- C9, as stated, fails. After `CreatePerson("2340001122", "A", ...)` the key
holds that person; `InitLedger`, which is no update of the key, replaces the
whole record by its first seed record. -/
theorem InitLedger_replaces_record :
    QueryPerson (Ctx.ok "tx3" 3)
        (CreatePerson (Ctx.ok "tx1" 1) [] "2340001122" "A" "B" "CityX" "AddrX" 89000000000
          true).1 "2340001122" =
      Except.ok { FirstName := "A", LastName := "B", City := "CityX", Address := "AddrX",
                  Phone := 89000000000, Married := true } ∧
    QueryPerson (Ctx.ok "tx3" 3)
        (Op.initLedger.run (Ctx.ok "tx2" 2)
          (CreatePerson (Ctx.ok "tx1" 1) [] "2340001122" "A" "B" "CityX" "AddrX" 89000000000
            true).1).1 "2340001122" =
      Except.ok { FirstName := "Lorem", LastName := "Ipsum", City := "Dolgoprudny",
                  Address := "Pervomayskaya 15", Phone := 89001112233, Married := false } :=
  ⟨rfl, rfl⟩

/-- C9, amended. Let key `k` hold the encoding of a `Person` `p`. After any
operation other than `InitLedger` on one of its two seed keys (and, for
`CreatePerson` of `k`, with the substrate read working), `k` holds a `Person`
that differs from `p` at most in the fields the operation targets when it is
an update of `k`, and equals `p` otherwise. After every operation, in every
transaction context, `k` still has a committed value. -/
theorem record_preserved (c : Ctx) (s : Ledger) (k : String) (p : Person) (op : Op)
    (hp : p.Phone < 2 ^ 64) (hheld : latest s k = some (jsonMarshal p).1)
    (hinit : op = Op.initLedger → k ∉ InitLedger.ids)
    (hcreate : ∀ firstName lastName city address phone married,
      op = Op.createPerson k firstName lastName city address phone married →
      c.getErr k = none) :
    (∃ p1, latest (op.run c s).1 k = some (jsonMarshal p1).1 ∧ op.preserves k p p1) ∧
    (∀ (c1 : Ctx) (op1 : Op), latest (op1.run c1 s).1 k ≠ none) := by
  constructor
  · cases op with
    | initLedger =>
      refine ⟨p, ?_, rfl⟩
      obtain ⟨t, ht, hkeys⟩ := InitLedger_loop_extends c (InitLedger.ids.zip InitLedger.people) s
      have h1 : (Op.initLedger.run c s).1 = s ++ t := ht
      rw [h1, latest_append_other s t k, hheld]
      intro e he hek
      apply hinit rfl
      rw [← hek]
      have := hkeys e he
      simpa [InitLedger.ids, InitLedger.people] using this
    | createPerson id firstName lastName city address phone married =>
      refine ⟨p, ?_, rfl⟩
      by_cases hid : id = k
      · subst hid
        have hget := hcreate firstName lastName city address phone married rfl
        simp only [Op.run]
        rw [CreatePerson_present c s id _ _ _ _ _ _ hget (by rw [hheld]; simp)]
        exact hheld
      · obtain ⟨t, ht, hkeys⟩ :=
          CreatePerson_extends c s id firstName lastName city address phone married
        simp only [Op.run]
        rw [ht, latest_append_other s t k (fun e he => by rw [hkeys e he]; exact hid), hheld]
    | queryPerson id => exact ⟨p, hheld, rfl⟩
    | queryAllPersons => exact ⟨p, hheld, rfl⟩
    | updateLocation id newCity newAddress =>
      by_cases hid : id = k
      · subst hid
        rcases update_same_key c s id
          (fun person => { person with City := newCity, Address := newAddress }) p hp hheld
          with h | h
        · exact ⟨p, h, by simp [Op.preserves]⟩
        · exact ⟨_, h, by simp [Op.preserves]⟩
      · refine ⟨p, ?_, by simp [Op.preserves, hid]⟩
        have := update_other_key c s id k
          (fun person => { person with City := newCity, Address := newAddress }) hid
        exact this.trans hheld
    | updatePhone id newPhone =>
      by_cases hid : id = k
      · subst hid
        rcases update_same_key c s id (fun person => { person with Phone := newPhone }) p hp
          hheld with h | h
        · exact ⟨p, h, by simp [Op.preserves]⟩
        · exact ⟨_, h, by simp [Op.preserves]⟩
      · refine ⟨p, ?_, by simp [Op.preserves, hid]⟩
        have := update_other_key c s id k (fun person => { person with Phone := newPhone }) hid
        exact this.trans hheld
    | updateMarriage id newMarriage =>
      by_cases hid : id = k
      · subst hid
        rcases update_same_key c s id (fun person => { person with Married := newMarriage }) p
          hp hheld with h | h
        · exact ⟨p, h, by simp [Op.preserves]⟩
        · exact ⟨_, h, by simp [Op.preserves]⟩
      · refine ⟨p, ?_, by simp [Op.preserves, hid]⟩
        have := update_other_key c s id k
          (fun person => { person with Married := newMarriage }) hid
        exact this.trans hheld
    | getUpdatesHistory id => exact ⟨p, hheld, rfl⟩
  · intro c1 op1
    obtain ⟨t, ht⟩ := run_extends c1 s op1
    rw [ht]
    exact latest_append_of_some s t k (by rw [hheld]; simp)

/-- The amended invariant at the scenario of the specification: after
`CreatePerson("1001", ...)`, `UpdateMarriage("1001", true)` leaves a record
that differs from the created one at most in the marriage flag. -/
theorem record_preserved_witness :
    (89000000000 < 2 ^ 64 ∧
      latest (CreatePerson (Ctx.ok "tx1" 1) [] "1001" "A" "B" "CityX" "AddrX" 89000000000
          false).1 "1001" =
        some (jsonMarshal { FirstName := "A", LastName := "B", City := "CityX",
                            Address := "AddrX", Phone := 89000000000, Married := false }).1) ∧
    ∃ p1, latest ((Op.updateMarriage "1001" true).run (Ctx.ok "tx2" 2)
        (CreatePerson (Ctx.ok "tx1" 1) [] "1001" "A" "B" "CityX" "AddrX" 89000000000
          false).1).1 "1001" = some (jsonMarshal p1).1 ∧
      (Op.updateMarriage "1001" true).preserves "1001"
        { FirstName := "A", LastName := "B", City := "CityX", Address := "AddrX",
          Phone := 89000000000, Married := false } p1 :=
  ⟨⟨by decide, rfl⟩,
    (record_preserved (Ctx.ok "tx2" 2)
      (CreatePerson (Ctx.ok "tx1" 1) [] "1001" "A" "B" "CityX" "AddrX" 89000000000 false).1
      "1001" { FirstName := "A", LastName := "B", City := "CityX", Address := "AddrX",
               Phone := 89000000000, Married := false }
      (Op.updateMarriage "1001" true) (by decide) rfl (fun h => Op.noConfusion h)
      (fun _ _ _ _ _ _ h => Op.noConfusion h)).1⟩

/-- C10, as stated, fails. The stored value `phoneAsText` is JSON whose phone
is a string, so decoding it as a `Person` fails; yet `QueryPerson` returns a
`Person` whose first name is "A", not the zero-valued `Person`. -/
theorem QueryPerson_partial_decode :
    (jsonUnmarshal phoneAsText Person.zero).2 = some JsonError.typeMismatch ∧
    QueryPerson (Ctx.ok "tx2" 2) [("1001", ⟨"tx1", 1, phoneAsText⟩)] "1001" =
      Except.ok { FirstName := "A", LastName := "", City := "", Address := "", Phone := 0,
                  Married := false } ∧
    QueryPerson (Ctx.ok "tx2" 2) [("1001", ⟨"tx1", 1, phoneAsText⟩)] "1001" ≠
      Except.ok Person.zero := by
  refine ⟨by decide, rfl, ?_⟩
  intro h
  have h1 : ({ FirstName := "A", LastName := "", City := "", Address := "", Phone := 0,
               Married := false } : Person) = Person.zero :=
    Except.ok.inj (Eq.trans (Eq.symm (rfl :
      QueryPerson (Ctx.ok "tx2" 2) [("1001", ⟨"tx1", 1, phoneAsText⟩)] "1001" =
        Except.ok { FirstName := "A", LastName := "", City := "", Address := "", Phone := 0,
                    Married := false })) h)
  exact absurd h1 (by decide)

/-- C10, amended. For a key whose stored value `v` is not `nil`, with the
substrate read working, `QueryPerson` never fails on a decoding error: it
returns what `json.Unmarshal` left in a fresh `Person`.
That is the zero-valued `Person` when `v` is not well-formed JSON.
When `v` is a JSON object, a member whose value does not fit its field is
skipped and the decoding reports an error, but the other members are stored as
if the failing one were not there; so for the encoding of a `Person` `p` with
the marriage flag written as a string, `QueryPerson` returns `p` with the flag
`false` and every other field of `p`.
The three updates put back the record `QueryPerson` returns with their targeted
fields replaced, and succeed when the `PutState` does. -/
theorem lenient_decode (c : Ctx) (s : Ledger) (id v : String)
    (hv : latest s id = some v) (hget : c.getErr id = none) :
    QueryPerson c s id = Except.ok (jsonUnmarshal v Person.zero).1 ∧
    ((jsonUnmarshal v Person.zero).2 = some JsonError.malformed →
      QueryPerson c s id = Except.ok Person.zero) ∧
    (∀ (ms1 ms2 : List (List Char × JShape)) (key : List Char) (bad : JShape),
      parseJSON v.data = some (JTop.members (ms1 ++ (key, bad) :: ms2)) →
      (storeMember key bad Person.zero).2 ≠ none →
      (jsonUnmarshal v Person.zero).2 ≠ none ∧
      QueryPerson c s id = Except.ok (storeMembers (ms1 ++ ms2) Person.zero none).1) ∧
    (∀ (p : Person) (t : String), p.Phone < 2 ^ 64 →
      v = String.mk (encodePersonMarriedText p t) →
      (jsonUnmarshal v Person.zero).2 = some JsonError.typeMismatch ∧
      QueryPerson c s id = Except.ok { p with Married := false }) ∧
    (∀ newCity newAddress, UpdateLocation c s id newCity newAddress =
      PutState c s id (jsonMarshal
        { (jsonUnmarshal v Person.zero).1 with City := newCity, Address := newAddress }).1) ∧
    (∀ newPhone, UpdatePhone c s id newPhone =
      PutState c s id (jsonMarshal
        { (jsonUnmarshal v Person.zero).1 with Phone := newPhone }).1) ∧
    (∀ newMarriage, UpdateMarriage c s id newMarriage =
      PutState c s id (jsonMarshal
        { (jsonUnmarshal v Person.zero).1 with Married := newMarriage }).1) ∧
    (∀ value, c.putErr id value = none →
      PutState c s id value = (s ++ [(id, ⟨c.txId, c.timestamp, value⟩)], none)) := by
  have hq := QueryPerson_present c s id v hget hv
  refine ⟨hq, ?_, ?_, ?_, ?_, ?_, ?_, ?_⟩
  · intro hbad
    rw [hq]
    congr 1
    unfold jsonUnmarshal at hbad ⊢
    cases hparse : parseJSON v.data with
    | none => rfl
    | some top =>
      rw [hparse] at hbad
      exfalso
      cases top with
      | members ms => exact storeMembers_error ms Person.zero none (by simp) hbad
      | other sh =>
        cases sh <;> simp at hbad
  · intro ms1 ms2 key bad hparse hbad
    have hskip := storeMembers_skip ms1 ms2 key bad hbad Person.zero none
    have hun : jsonUnmarshal v Person.zero =
        storeMembers (ms1 ++ (key, bad) :: ms2) Person.zero none := by
      simp only [jsonUnmarshal, hparse]
    rw [hq, hun]
    exact ⟨hskip.2, by rw [hskip.1]⟩
  · intro p t hp hvt
    have hun := jsonUnmarshal_marriedText p t hp
    rw [hq, hvt, hun]
    exact ⟨rfl, rfl⟩
  · intro newCity newAddress; simp only [UpdateLocation, hq]
  · intro newPhone; simp only [UpdatePhone, hq]
  · intro newMarriage; simp only [UpdateMarriage, hq]
  · intro value hput; exact PutState_ok c s id value hput

/-- The amended lenient decoding at a stored value whose marriage flag is the
string "yes": decoding fails with a type error, and `QueryPerson` returns the
other five fields as they were encoded. -/
theorem lenient_decode_witness :
    (latest [("1001", ⟨"tx1", 1, String.mk (encodePersonMarriedText
          { FirstName := "A", LastName := "B", City := "CityX", Address := "AddrX",
            Phone := 89000000000, Married := true } "yes")⟩)] "1001" =
        some (String.mk (encodePersonMarriedText
          { FirstName := "A", LastName := "B", City := "CityX", Address := "AddrX",
            Phone := 89000000000, Married := true } "yes")) ∧
      (Ctx.ok "tx2" 2).getErr "1001" = none ∧ 89000000000 < 2 ^ 64) ∧
    (jsonUnmarshal (String.mk (encodePersonMarriedText
        { FirstName := "A", LastName := "B", City := "CityX", Address := "AddrX",
          Phone := 89000000000, Married := true } "yes")) Person.zero).2 =
      some JsonError.typeMismatch ∧
    QueryPerson (Ctx.ok "tx2" 2)
        [("1001", ⟨"tx1", 1, String.mk (encodePersonMarriedText
          { FirstName := "A", LastName := "B", City := "CityX", Address := "AddrX",
            Phone := 89000000000, Married := true } "yes")⟩)] "1001" =
      Except.ok { FirstName := "A", LastName := "B", City := "CityX", Address := "AddrX",
                  Phone := 89000000000, Married := false } :=
  ⟨⟨rfl, rfl, by decide⟩,
    (lenient_decode (Ctx.ok "tx2" 2)
      [("1001", ⟨"tx1", 1, String.mk (encodePersonMarriedText
          { FirstName := "A", LastName := "B", City := "CityX", Address := "AddrX",
            Phone := 89000000000, Married := true } "yes")⟩)] "1001"
      (String.mk (encodePersonMarriedText
          { FirstName := "A", LastName := "B", City := "CityX", Address := "AddrX",
            Phone := 89000000000, Married := true } "yes")) rfl rfl).2.2.2.1
      { FirstName := "A", LastName := "B", City := "CityX", Address := "AddrX",
        Phone := 89000000000, Married := true } "yes" (by decide) rfl⟩

end Census
